import Mathlib

/-!
# Stored comment injector (`storedxss.go`)

A shallow embedding of the challenge server: the credential provisioner, the
comment store (a bbolt bucket keyed by the decimal id), the JSON record codec,
the four HTTP handlers and the two page templates, followed by the properties
of the specification checked against them.

Go strings are byte strings; they are modelled as lists of bytes, so that a
form value or an environment variable that is not valid UTF-8 is an input like
any other.
-/

namespace StoredXSS

set_option maxRecDepth 1000000

/-! ## Go strings -/

/-- A Go `byte`. -/
abbrev Byte := Fin 256

/-- A Go `string` or `[]byte`: a finite sequence of bytes. -/
abbrev Bytes := List Byte

/-- Conversion `byte(n)` of a non-negative integer: the low eight bits. -/
def byte (n : Nat) : Byte := ⟨n % 256, Nat.mod_lt _ (by decide)⟩

/-- The rune `utf8.RuneError`, U+FFFD. -/
def RuneError : Nat := 0xFFFD

/-- Go `utf8.EncodeRune`: the UTF-8 bytes of a rune; a surrogate or a value
above U+10FFFF is written as U+FFFD. -/
def encodeRune (r : Nat) : Bytes :=
  if r ≤ 0x7F then [byte r]
  else if r ≤ 0x7FF then [byte (0xC0 + r / 64), byte (0x80 + r % 64)]
  else if 0x10FFFF < r ∨ (0xD800 ≤ r ∧ r ≤ 0xDFFF) then [0xEF, 0xBF, 0xBD]
  else if r ≤ 0xFFFF then
    [byte (0xE0 + r / 4096), byte (0x80 + r / 64 % 64), byte (0x80 + r % 64)]
  else
    [byte (0xF0 + r / 262144), byte (0x80 + r / 4096 % 64), byte (0x80 + r / 64 % 64),
     byte (0x80 + r % 64)]

/-- The bytes of a string constant of the source (Go source text is UTF-8). -/
def goStr (s : String) : Bytes := s.data.flatMap (fun c => encodeRune c.toNat)

/-- The bytes of a constant given line by line. -/
def goLines (ls : List String) : Bytes := ls.flatMap goStr

/-- Go `strings.Contains(s, sub)` as a proposition: `sub` is a contiguous run of `s`. -/
def Contains (s sub : Bytes) : Prop := sub <:+: s

instance (s sub : Bytes) : Decidable (Contains s sub) := by
  unfold Contains; infer_instance

/-- Continuation byte of a multi-byte UTF-8 sequence, `0x80 ≤ b ≤ 0xBF`. -/
def isCont (b : Byte) : Bool := 0x80 ≤ b.val && b.val ≤ 0xBF

/-- Go `utf8.DecodeRune`: the first rune of `p` and its width in bytes. An
invalid or truncated encoding gives `(RuneError, 1)`, the empty input
`(RuneError, 0)`. The second byte is checked against the range the first byte
allows (`acceptRanges`), which rules out overlong forms, surrogates and values
above U+10FFFF. -/
def decodeRune : Bytes → Nat × Nat
  | [] => (RuneError, 0)
  | b0 :: rest =>
    if b0.val < 0x80 then (b0.val, 1)
    else if b0.val < 0xC2 ∨ 0xF4 < b0.val then (RuneError, 1)
    else
      let lo := if b0.val = 0xE0 then 0xA0 else if b0.val = 0xF0 then 0x90 else 0x80
      let hi := if b0.val = 0xED then 0x9F else if b0.val = 0xF4 then 0x8F else 0xBF
      match rest with
      | [] => (RuneError, 1)
      | b1 :: rest1 =>
        if b1.val < lo ∨ hi < b1.val then (RuneError, 1)
        else if b0.val < 0xE0 then (b0.val % 32 * 64 + b1.val % 64, 2)
        else
          match rest1 with
          | [] => (RuneError, 1)
          | b2 :: rest2 =>
            if !isCont b2 then (RuneError, 1)
            else if b0.val < 0xF0 then
              (b0.val % 16 * 4096 + b1.val % 64 * 64 + b2.val % 64, 3)
            else
              match rest2 with
              | [] => (RuneError, 1)
              | b3 :: _ =>
                if !isCont b3 then (RuneError, 1)
                else
                  (b0.val % 8 * 262144 + b1.val % 64 * 4096 + b2.val % 64 * 64 + b3.val % 64, 4)

/-- One step of a Go loop that walks a string rune by rune
(`c, size := utf8.DecodeRune(s[i:]); i += size`): the rune and the bytes it
was read from. -/
structure Chunk where
  rune : Nat
  raw : Bytes
deriving DecidableEq, Repr

/-- The steps of the rune-by-rune walk over `s`; `fuel` bounds the number of
steps and `s.length` is always enough, since every step consumes a byte. -/
def chunksAux : Nat → Bytes → List Chunk
  | 0, _ => []
  | _, [] => []
  | fuel + 1, b :: rest =>
    let d := decodeRune (b :: rest)
    ⟨d.1, (b :: rest).take d.2⟩ :: chunksAux fuel ((b :: rest).drop d.2)

/-- The rune-by-rune walk over the whole string. -/
def chunks (s : Bytes) : List Chunk := chunksAux s.length s

/-- A step that met an invalid byte: `c == utf8.RuneError && size == 1`. -/
def Chunk.invalid (c : Chunk) : Bool := c.rune == RuneError && c.raw.length == 1

/-- Go `utf8.Valid`: no step of the walk meets an invalid byte. -/
def utf8Valid (s : Bytes) : Bool := (chunks s).all (fun c => !c.invalid)

/-! ## `encoding/json`: string literals -/

/-- The table `hex = "0123456789abcdef"` at index `n`. -/
def hexDigit (n : Nat) : Byte := if n < 10 then byte (0x30 + n) else byte (0x57 + n)

/-- The table `htmlSafeSet` of `encoding/json`: the ASCII bytes written without
an escape when HTML escaping is on (the default of `Marshal` and of an
`Encoder`): printable ASCII except the quote, the backslash and `& < >`. -/
def htmlSafe (b : Nat) : Bool :=
  0x20 ≤ b && b < 0x80 && b != 0x22 && b != 0x5C && b != 0x26 && b != 0x3C && b != 0x3E

/-- Escape of one ASCII byte outside `htmlSafeSet` (the `switch b` of
`appendString`). -/
def jsonEscapeAscii (b : Nat) : Bytes :=
  if b = 0x5C ∨ b = 0x22 then [0x5C, byte b]
  else if b = 0x08 then goStr "\\b"
  else if b = 0x0C then goStr "\\f"
  else if b = 0x0A then goStr "\\n"
  else if b = 0x0D then goStr "\\r"
  else if b = 0x09 then goStr "\\t"
  else goStr "\\u00" ++ [hexDigit (b / 16), hexDigit (b % 16)]

/-- What `appendString` writes for one step of its walk over the source
string: a safe ASCII byte and a valid multi-byte rune are copied, an invalid
byte becomes the six characters of the escape for U+FFFD, and U+2028 and U+2029
are escaped. -/
def jsonEscapeChunk (c : Chunk) : Bytes :=
  if c.rune < 0x80 then
    if htmlSafe c.rune then c.raw else jsonEscapeAscii c.rune
  else if c.invalid then goStr "\\ufffd"
  else if c.rune = 0x2028 ∨ c.rune = 0x2029 then goStr "\\u202" ++ [hexDigit (c.rune % 16)]
  else c.raw

/-- `appendString` of `encoding/json` with `escapeHTML = true`: the JSON string
literal of a Go string, quotes included. -/
def jsonString (s : Bytes) : Bytes :=
  0x22 :: ((chunks s).flatMap jsonEscapeChunk ++ [0x22])

/-- What a JSON reader gets back for one step of the walk. -/
def coerceChunk (c : Chunk) : Bytes := if c.invalid then encodeRune RuneError else c.raw

/-- The string a JSON reader gets back from `jsonString s`: `s` with every
invalid byte replaced by U+FFFD ("coerced to valid UTF-8", as the package
documentation puts it). -/
def coerceUTF8 (s : Bytes) : Bytes := (chunks s).flatMap coerceChunk

/-- Value of a hexadecimal digit, either case. -/
def hexVal (b : Byte) : Option Nat :=
  if 0x30 ≤ b.val ∧ b.val ≤ 0x39 then some (b.val - 0x30)
  else if 0x61 ≤ b.val ∧ b.val ≤ 0x66 then some (b.val - 0x57)
  else if 0x41 ≤ b.val ∧ b.val ≤ 0x46 then some (b.val - 0x37)
  else none

/-- The four hexadecimal digits after `\u` (`getu4` of `encoding/json`), and the
input after them. -/
def getu4 : Bytes → Option (Nat × Bytes)
  | a :: b :: c :: d :: rest =>
    match hexVal a, hexVal b, hexVal c, hexVal d with
    | some x, some y, some z, some w => some (x * 4096 + y * 256 + z * 16 + w, rest)
    | _, _, _, _ => none
  | _ => none

/-- Go `utf16.IsSurrogate`. -/
def isSurrogate (r : Nat) : Bool := 0xD800 ≤ r && r < 0xE000

/-- Go `utf16.DecodeRune`: the rune of a surrogate pair, U+FFFD when the two
halves are not a high and a low surrogate. -/
def utf16DecodeRune (r1 r2 : Nat) : Nat :=
  if 0xD800 ≤ r1 ∧ r1 < 0xDC00 ∧ 0xDC00 ≤ r2 ∧ r2 < 0xE000 then
    (r1 - 0xD800) * 1024 + (r2 - 0xDC00) + 0x10000
  else RuneError

/-- The single-character escapes a JSON string literal may hold after a
backslash, and the byte each stands for. -/
def simpleEscape (e : Byte) : Option Byte :=
  if e.val = 0x22 ∨ e.val = 0x5C ∨ e.val = 0x2F then some e
  else if e.val = 0x62 then some 0x08
  else if e.val = 0x66 then some 0x0C
  else if e.val = 0x6E then some 0x0A
  else if e.val = 0x72 then some 0x0D
  else if e.val = 0x74 then some 0x09
  else none

/-- Put `out` in front of the decoded string of a continued read. -/
def emit (out : Bytes) (r : Option (Bytes × Bytes)) : Option (Bytes × Bytes) :=
  r.map (fun p => (out ++ p.1, p.2))

/-- Reading a JSON string literal after its opening quote (the scanner's walk
to the closing quote together with `unquoteBytes`): the decoded string and the
input after the closing quote, `none` for a literal the decoder rejects (a raw
control character, an unknown or truncated escape, no closing quote). -/
def unquoteAux : Nat → Bytes → Option (Bytes × Bytes)
  | 0, _ => none
  | _, [] => none
  | fuel + 1, c :: rest =>
    if c.val = 0x22 then some ([], rest)
    else if c.val = 0x5C then
      match rest with
      | [] => none
      | e :: rest1 =>
        if e.val = 0x75 then
          match getu4 rest1 with
          | none => none
          | some (rr, rest2) =>
            if isSurrogate rr then
              match rest2 with
              | 0x5C :: 0x75 :: rest3 =>
                match getu4 rest3 with
                | some (rr1, rest4) =>
                  if utf16DecodeRune rr rr1 ≠ RuneError then
                    emit (encodeRune (utf16DecodeRune rr rr1)) (unquoteAux fuel rest4)
                  else emit (encodeRune RuneError) (unquoteAux fuel rest2)
                | none => emit (encodeRune RuneError) (unquoteAux fuel rest2)
              | _ => emit (encodeRune RuneError) (unquoteAux fuel rest2)
            else emit (encodeRune rr) (unquoteAux fuel rest2)
        else
          match simpleEscape e with
          | some b => emit [b] (unquoteAux fuel rest1)
          | none => none
    else if c.val < 0x20 then none
    else if c.val < 0x80 then emit [c] (unquoteAux fuel rest)
    else
      let d := decodeRune (c :: rest)
      emit (encodeRune d.1) (unquoteAux fuel ((c :: rest).drop d.2))

/-- A JSON string literal at the head of the input: the opening quote, then
`unquoteAux`. -/
def parseString : Bytes → Option (Bytes × Bytes)
  | 0x22 :: rest => unquoteAux (rest.length + 1) rest
  | _ => none

/-! ## `strconv`: decimal integers -/

/-- The decimal digits of `n`, least significant first. -/
def decimalLE : Nat → Nat → List Nat
  | 0, _ => []
  | fuel + 1, n => n % 10 :: (if n / 10 = 0 then [] else decimalLE fuel (n / 10))

/-- The decimal numeral of a natural number, as ASCII bytes. -/
def formatNat (n : Nat) : Bytes := ((decimalLE (n + 1) n).reverse).map (fun d => byte (0x30 + d))

/-- Go `strconv.FormatInt(v, 10)`. -/
def formatInt (v : Int) : Bytes :=
  if v < 0 then 0x2D :: formatNat v.natAbs else formatNat v.natAbs

/-- An ASCII decimal digit. -/
def isDigit (b : Byte) : Bool := 0x30 ≤ b.val && b.val ≤ 0x39

/-- Value of a run of decimal digits read left to right. -/
def digitsValue (ds : Bytes) : Nat := ds.foldl (fun acc d => acc * 10 + (d.val - 0x30)) 0

/-- A JSON integer at the head of the input, decoded into an `int64`: an
optional minus sign and a run of digits with no leading zero; `none` when there
is no such numeral or its value does not fit in 64 bits. -/
def parseInt (s : Bytes) : Option (Int × Bytes) :=
  let neg := s.head? = some 0x2D
  let body := if neg then s.drop 1 else s
  let ds := body.takeWhile isDigit
  let rest := body.dropWhile isDigit
  if ds = [] ∨ (ds.head? = some 0x30 ∧ ds.length ≠ 1) then none
  else
    let v : Int := if neg then -(digitsValue ds : Int) else (digitsValue ds : Int)
    if -(2 ^ 63 : Int) ≤ v ∧ v < 2 ^ 63 then some (v, rest) else none

/-! ## The comment record -/

/-- The struct `Comment`; `ID` is an `int64`. -/
structure Comment where
  ID : Int
  Username : Bytes
  Content : Bytes
  CreatedAt : Bytes
deriving DecidableEq, Repr

/-- Go `json.Marshal(c)` for a `*Comment`: an object with the four members in
declaration order under their `json` tags, no white space. It cannot fail for
this struct. -/
def jsonMarshal (c : Comment) : Bytes :=
  goStr "\x7b\"id\":" ++ formatInt c.ID ++
  goStr ",\"username\":" ++ jsonString c.Username ++
  goStr ",\"content\":" ++ jsonString c.Content ++
  goStr ",\"created_at\":" ++ jsonString c.CreatedAt ++
  goStr "\x7d"

/-- Consume the fixed text `lit` at the head of the input. -/
def expect (lit : Bytes) (s : Bytes) : Option Bytes :=
  if lit <+: s then some (s.drop lit.length) else none

/-- Go `json.Unmarshal(v, &cm)` on the documents `jsonMarshal` writes: the four
members in order, an integer and three string literals, nothing after the
closing brace. `none` is a decode error. Go's decoder also accepts other
spellings of the same object (white space, members in another order); the
bucket is only ever written by `saveComment`, so they do not occur. -/
def jsonUnmarshal (v : Bytes) : Option Comment :=
  (expect (goStr "\x7b\"id\":") v).bind fun s1 =>
  (parseInt s1).bind fun (id, s2) =>
  (expect (goStr ",\"username\":") s2).bind fun s3 =>
  (parseString s3).bind fun (username, s4) =>
  (expect (goStr ",\"content\":") s4).bind fun s5 =>
  (parseString s5).bind fun (content, s6) =>
  (expect (goStr ",\"created_at\":") s6).bind fun s7 =>
  (parseString s7).bind fun (createdAt, s8) =>
  if s8 = goStr "\x7d" then some ⟨id, username, content, createdAt⟩ else none

/-- The function `itob`: the decimal numeral of the id as bytes. -/
def itob (v : Int) : Bytes := formatInt v

/-! ## The bbolt bucket -/

/-- Go `bytes.Compare(a, b) < 0`, the order in which bbolt keeps the keys of a
bucket: byte-wise lexicographic. -/
def keyLt : Bytes → Bytes → Bool
  | [], [] => false
  | [], _ :: _ => true
  | _ :: _, [] => false
  | a :: as, b :: bs => a.val < b.val || (a == b && keyLt as bs)

/-- The bucket `comments`: its sequence counter (a `uint64`) and its key/value
pairs in ascending key order. -/
structure Bucket where
  sequence : Nat
  entries : List (Bytes × Bytes)
deriving DecidableEq, Repr

/-- The database file as the program uses it: the bucket `comments`, or `none`
before `main` has created it. -/
abbrev DB := Option Bucket

/-- The bucket right after `CreateBucketIfNotExists` on a new file. -/
def Bucket.empty : Bucket := ⟨0, []⟩

/-- The store `main` serves from on a new database file, before the hint
comment is seeded. -/
def freshDB : DB := some Bucket.empty

/-- Position-preserving insert of `(k, v)` into pairs sorted by key: a pair
with the same key is replaced. -/
def insertEntry (k v : Bytes) : List (Bytes × Bytes) → List (Bytes × Bytes)
  | [] => [(k, v)]
  | (k1, v1) :: rest =>
    if k = k1 then (k, v) :: rest
    else if keyLt k k1 then (k, v) :: (k1, v1) :: rest
    else (k1, v1) :: insertEntry k v rest

/-- The ways a database update can end without committing. -/
inductive StoreError where
  | keyRequired
  | keyTooLarge
  | valueTooLarge
  | nilBucket
deriving DecidableEq, Repr

/-- bbolt `MaxKeySize`. -/
def MaxKeySize : Nat := 32768

/-- bbolt `MaxValueSize`, `(1 << 31) - 2`. -/
def MaxValueSize : Nat := 2 ^ 31 - 2

/-- bbolt `Bucket.NextSequence` in a writable transaction: increment the
`uint64` counter and return it. -/
def Bucket.NextSequence (b : Bucket) : Nat × Bucket :=
  ((b.sequence + 1) % 2 ^ 64, { b with sequence := (b.sequence + 1) % 2 ^ 64 })

/-- bbolt `Bucket.Put` in a writable transaction. -/
def Bucket.Put (b : Bucket) (key value : Bytes) : Except StoreError Bucket :=
  if key.length = 0 then .error .keyRequired
  else if key.length > MaxKeySize then .error .keyTooLarge
  else if value.length > MaxValueSize then .error .valueTooLarge
  else .ok { b with entries := insertEntry key value b.entries }

/-- bbolt `Bucket.Get`. -/
def Bucket.Get (b : Bucket) (key : Bytes) : Option Bytes :=
  (b.entries.find? (fun e => e.1 == key)).map Prod.snd

/-- Conversion `int64(id)` of a `uint64`. -/
def toInt64 (n : Nat) : Int :=
  if n % 2 ^ 64 < 2 ^ 63 then (n % 2 ^ 64 : Nat) else (n % 2 ^ 64 : Nat) - 2 ^ 64

/-- The function `saveComment`: in one update transaction take the next
sequence number, write it into the comment, marshal the comment and put it
under `itob` of the id. The result is the committed database and the comment
with its id; on an error the transaction is rolled back, so the caller keeps the
database it had. A missing bucket is a nil pointer in `b.NextSequence()`. -/
def saveComment (db : DB) (c : Comment) : Except StoreError (DB × Comment) :=
  match db with
  | none => .error .nilBucket
  | some b =>
    let (id, b1) := b.NextSequence
    let c1 := { c with ID := toInt64 id }
    let data := jsonMarshal c1
    match b1.Put (itob c1.ID) data with
    | .error e => .error e
    | .ok b2 => .ok (some b2, c1)

/-- The loop of `loadComments` over the cursor, from the last key towards the
first: the first argument after `limit` holds the pairs still ahead of the
cursor, greatest key first, and `out` the comments collected so far. A value
that does not decode is skipped. -/
def loadLoop (limit : Int) : List (Bytes × Bytes) → List Comment → List Comment
  | [], out => out
  | (_, v) :: rest, out =>
    if (out.length : Int) < limit then
      match jsonUnmarshal v with
      | none => loadLoop limit rest out
      | some cm => loadLoop limit rest (out ++ [cm])
    else out

/-- The function `loadComments`; the read transaction itself does not fail. -/
def loadComments (db : DB) (limit : Int) : List Comment :=
  match db with
  | none => []
  | some b => loadLoop limit b.entries.reverse []

/-- Save the comments of `cs` one after the other, each call on the database the
previous one committed; the result is the final database and the comments as
saved, in call order, or the error of the first call that failed. -/
def saveAll : DB → List Comment → Except StoreError (DB × List Comment)
  | db, [] => .ok (db, [])
  | db, c :: cs =>
    match saveComment db c with
    | .error e => .error e
    | .ok (db1, c1) =>
      match saveAll db1 cs with
      | .error e => .error e
      | .ok (db2, saved) => .ok (db2, c1 :: saved)

/-! ## `html/template` -/

/-- The table `htmlReplacementTable` of `html/template`, applied by the escaper
to a plain string in HTML text: NUL becomes U+FFFD and `" & ' + < >` become
character references. Every byte of a multi-byte or invalid sequence is
copied. -/
def htmlEscapeByte (b : Byte) : Bytes :=
  if b.val = 0x00 then encodeRune RuneError
  else if b.val = 0x22 then goStr "&#34;"
  else if b.val = 0x26 then goStr "&amp;"
  else if b.val = 0x27 then goStr "&#39;"
  else if b.val = 0x2B then goStr "&#43;"
  else if b.val = 0x3C then goStr "&lt;"
  else if b.val = 0x3E then goStr "&gt;"
  else [b]

/-- The escaper `htmlEscaper` of `html/template` on a value of type `string`. -/
def htmlEscape (s : Bytes) : Bytes := s.flatMap htmlEscapeByte

/-- The escaper on a value of type `template.HTML`: the content type is HTML, so
the value is written as it is. -/
def htmlTrusted (s : Bytes) : Bytes := s

/-!
The static text of the two templates, split at their actions. `html/template`
rewrites the static text when it escapes a template: a comment of a style
block is replaced by one space and a line comment of a script block is dropped
up to its line end. The segments below hold the text after that rewriting.
-/

/-- The constant `indexHTML` up to `{{range .Comments}}`, as the template writes it. -/
def indexHead : Bytes := goLines
  ["<!doctype html>\n",
   "<html>\n",
   "<head>\n",
   "<meta charset=\"utf-8\">\n",
   "<title>Comments Board - CTF Challenge</title>\n",
   "<meta name=\"viewport\" content=\"width=device-width,initial-scale=1\">\n",
   "<style>\n",
   "  :root\x7b\n",
   "    --bg:#0f1724;\n",
   "    --card:#0b1220;\n",
   "    --muted:#9aa4b2;\n",
   "    --accent:#7c3aed;\n",
   "    --accent-2:#06b6d4;\n",
   "    --surface:#0b1220;\n",
   "    --glass: rgba(255,255,255,0.03);\n",
   "  \x7d\n",
   "   \n",
   "  *\x7bbox-sizing:border-box\x7d\n",
   "  body\x7bfont-family:Inter, -apple-system, BlinkMacSystemFont, 'Segoe UI', Roboto, 'Helvetica Neue', Arial; margin:0; background:linear-gradient(180deg,#071028 0%, #07192f 60%); color:#e6eef8; -webkit-font-smoothing:antialiased;\x7d\n",
   "\n",
   "  .container\x7bmax-width:960px; margin:36px auto; padding:28px;\x7d\n",
   "  header\x7bdisplay:flex; align-items:center; gap:16px\x7d\n",
   "  h1\x7bfont-size:1.6rem; margin:0; letter-spacing:-0.2px\x7d\n",
   "  .logo\x7bwidth:56px; height:56px; display:grid; place-items:center; background:linear-gradient(135deg,var(--accent),var(--accent-2)); border-radius:12px; box-shadow:0 6px 20px rgba(124,58,237,0.16);\x7d\n",
   "  .logo span\x7bfont-weight:700\x7d\n",
   "\n",
   "  .notice\x7bbackground:linear-gradient(90deg, rgba(124,58,237,0.08), rgba(6,182,212,0.04)); border:1px solid rgba(255,255,255,0.04); padding:14px; margin:18px 0; border-radius:12px; color:var(--muted)\x7d\n",
   "\n",
   "  .board\x7bdisplay:grid; grid-template-columns:1fr 360px; gap:24px; margin-top:18px\x7d\n",
   "\n",
   "   \n",
   "  .card\x7bbackground:linear-gradient(180deg, rgba(255,255,255,0.02), rgba(255,255,255,0.01)); border:1px solid rgba(255,255,255,0.03); padding:18px; border-radius:12px\x7d\n",
   "  label\x7bdisplay:block; font-size:0.85rem; color:var(--muted); margin-bottom:6px\x7d\n",
   "  input[type=\"text\"], textarea\x7bwidth:100%; padding:12px; border-radius:8px; border:1px solid rgba(255,255,255,0.04); background:transparent; color:inherit; outline:none\x7d\n",
   "  textarea\x7bmin-height:130px; resize:vertical\x7d\n",
   "  .controls\x7bdisplay:flex; gap:10px; align-items:center; margin-top:12px\x7d\n",
   "  .btn\x7bdisplay:inline-flex; align-items:center; gap:10px; padding:10px 14px; border-radius:10px; cursor:pointer; border:0; font-weight:600\x7d\n",
   "  .btn-primary\x7bbackground:linear-gradient(90deg,var(--accent),var(--accent-2)); color:white; box-shadow:0 8px 30px rgba(7,16,44,0.6)\x7d\n",
   "  .btn-ghost\x7bbackground:transparent; border:1px solid rgba(255,255,255,0.03); color:var(--muted)\x7d\n",
   "\n",
   "   \n",
   "  .comments\x7blist-style:none; padding:0; margin:0\x7d\n",
   "  .comment\x7bbackground:var(--glass); border-radius:10px; padding:14px; margin-bottom:12px; border:1px solid rgba(255,255,255,0.02)\x7d\n",
   "  .meta\x7bdisplay:flex; justify-content:space-between; align-items:center; gap:10px\x7d\n",
   "  .user\x7bfont-weight:700\x7d\n",
   "  .time\x7bfont-size:0.82rem; color:var(--muted)\x7d\n",
   "  .content\x7bmargin-top:10px; color:#dbeafe\x7d\n",
   "\n",
   "  footer\x7bmargin-top:26px; color:var(--muted)\x7d\n",
   "\n",
   "   \n",
   "  .admin-note\x7bfont-size:0.85rem\x7d\n",
   "\n",
   "   \n",
   "  @media (max-width:900px)\x7b\n",
   "    .board\x7bgrid-template-columns:1fr;\x7d\n",
   "    .container\x7bpadding:18px\x7d\n",
   "  \x7d\n",
   "</style>\n",
   "<script>\n",
   "  \n",
   "  window.addEventListener('DOMContentLoaded', function() \x7b\n",
   "    const isAdmin = window.location.search.includes('admin_bot=true');\n",
   "    if (isAdmin) \x7b\n",
   "      fetch('/bot-init', \x7b headers: \x7b 'X-Admin-Bot': '1' \x7d \x7d)\n",
   "        .then(r => r.json())\n",
   "        .then(data => \x7b\n",
   "          localStorage.setItem('admin_secret', data.secret);\n",
   "          console.log('[Admin Bot] Secret retrieved and stored in localStorage');\n",
   "          console.log('[Admin Bot] Ready to review comments');\n",
   "        \x7d)\n",
   "        .catch(err => \x7b\n",
   "          console.error('[Admin Bot] Failed to initialize:', err);\n",
   "        \x7d);\n",
   "    \x7d\n",
   "  \x7d);\n",
   "</script>\n",
   "</head>\n",
   "<body>\n",
   "  <div class=\"container\">\n",
   "    <header>\n",
   "      <div class=\"logo\"><span>CB</span></div>\n",
   "      <div>\n",
   "        <h1>🔓 Shared Comments Board</h1>\n",
   "        <div style=\"color:var(--muted); font-size:0.95rem;\">Community discussion - play safe. This is a CTF challenge intentionally vulnerable.</div>\n",
   "      </div>\n",
   "    </header>\n",
   "\n",
   "    <div class=\"notice card\">\n",
   "      <strong>📢 Notice:</strong>\n",
   "      <div style=\"margin-top:8px\">An admin moderator visits this page regularly to review all comments. The admin uses a modern browser with client-side storage for session management.</div>\n",
   "    </div>\n",
   "\n",
   "    <div class=\"board\">\n",
   "      <div>\n",
   "        <div class=\"card\">\n",
   "          <form method=\"post\" action=\"/post\">\n",
   "            <label for=\"username\">Your name</label>\n",
   "            <input id=\"username\" name=\"username\" placeholder=\"Your name\" required>\n",
   "\n",
   "            <label for=\"content\" style=\"margin-top:12px\">Share your thoughts</label>\n",
   "            <textarea id=\"content\" name=\"content\" placeholder=\"Share your thoughts...\" required></textarea>\n",
   "\n",
   "            <div class=\"controls\">\n",
   "              <button class=\"btn btn-primary\" type=\"submit\">Post Comment</button>\n",
   "              <button class=\"btn btn-ghost\" type=\"reset\">Reset</button>\n",
   "            </div>\n",
   "          </form>\n",
   "        </div>\n",
   "\n",
   "        <h2 style=\"margin-top:18px\">Recent Comments</h2>\n",
   "        <ul class=\"comments\">\n",
   "        "]

/-- The body of the range of `indexHTML` up to `{{.Username}}`. -/
def indexItemOpen : Bytes := goLines
  ["\n",
   "          <li class=\"comment\">\n",
   "            <div class=\"meta\"><div class=\"user\">"]

/-- Between `{{.Username}}` and `{{.CreatedAt}}`. -/
def indexItemTime : Bytes := goLines
  ["</div><div class=\"time\">"]

/-- Between `{{.CreatedAt}}` and `{{.Content}}`. -/
def indexItemContent : Bytes := goLines
  ["</div></div>\n",
   "            <div class=\"content\">"]

/-- From `{{.Content}}` to the `{{end}}` of the range. -/
def indexItemClose : Bytes := goLines
  ["</div>\n",
   "          </li>\n",
   "        "]

/-- The constant `indexHTML` after the range. -/
def indexTail : Bytes := goLines
  ["\n",
   "        </ul>\n",
   "      </div>\n",
   "\n",
   "      <aside>\n",
   "        <div class=\"card\">\n",
   "          <h3 style=\"margin-top:0\">About this CTF</h3>\n",
   "          <p style=\"color:var(--muted); margin-bottom:0.6rem\">This application intentionally exposes a stored XSS vulnerability for two-step exploitation.</p>\n",
   "          <hr style=\"border:none; height:1px; background:rgba(255,255,255,0.02); margin:12px 0\">\n",
   "          <p style=\"font-size:0.9rem; color:var(--muted)\">Tip: Use the admin bot flow by visiting <code>/ ?admin_bot=true</code> to populate localStorage in a demo admin browser.</p>\n",
   "        </div>\n",
   "      </aside>\n",
   "    </div>\n",
   "\n",
   "    <footer>\n",
   "      <p class=\"admin-note\">Admin panel: <a href=\"/admin\" style=\"color:var(--accent); text-decoration:none\">/admin</a> (requires secret parameter)</p>\n",
   "    </footer>\n",
   "  </div>\n",
   "</body>\n",
   "</html>"]

/-- The constant `adminHTML` up to `{{.Flag}}`, as the template writes it. -/
def adminHead : Bytes := goLines
  ["<!doctype html>\n",
   "<html>\n",
   "<head>\n",
   "<meta charset=\"utf-8\">\n",
   "<title>Admin Panel - Moderation</title>\n",
   "<meta name=\"viewport\" content=\"width=device-width,initial-scale=1\">\n",
   "<style>\n",
   "  :root\x7b --bg:#071021; --muted:#9aa4b2; --accent:#7c3aed; --accent-2:#06b6d4 \x7d\n",
   "  *\x7bbox-sizing:border-box\x7d\n",
   "  body\x7bmargin:0; font-family:Inter, system-ui, -apple-system, 'Segoe UI', Roboto; background:linear-gradient(180deg,#061225 0%, #071027 80%); color:#eaf2ff\x7d\n",
   "  .wrap\x7bmax-width:980px; margin:36px auto; padding:28px\x7d\n",
   "  h1\x7bmargin:0 0 8px 0\x7d\n",
   "  .flag-box\x7bbackground:linear-gradient(90deg, rgba(124,58,237,0.06), rgba(6,182,212,0.04)); border:1px solid rgba(255,255,255,0.04); padding:18px; border-radius:12px; margin:16px 0\x7d\n",
   "  .flag\x7bdisplay:inline-block; padding:12px 16px; background:rgba(0,0,0,0.35); border-radius:8px; font-family:ui-monospace, SFMono-Regular, Menlo, Monaco, 'Roboto Mono', monospace; font-size:1.1rem; letter-spacing:0.6px\x7d\n",
   "  .grid\x7bdisplay:grid; grid-template-columns:1fr 360px; gap:24px; align-items:start\x7d\n",
   "  .card\x7bbackground:linear-gradient(180deg, rgba(255,255,255,0.02), rgba(255,255,255,0.01)); border-radius:12px; padding:16px; border:1px solid rgba(255,255,255,0.03)\x7d\n",
   "  .comment\x7bpadding:12px; border-radius:10px; background:rgba(255,255,255,0.02); margin-bottom:12px\x7d\n",
   "  .comment .meta\x7bdisplay:flex; justify-content:space-between; align-items:center\x7d\n",
   "  .username\x7bfont-weight:700\x7d\n",
   "  .comment-body\x7bmargin-top:8px\x7d\n",
   "  a.back\x7bdisplay:inline-block; margin-top:12px; color:var(--accent); text-decoration:none\x7d\n",
   "\n",
   "  @media (max-width:900px)\x7b .grid\x7bgrid-template-columns:1fr\x7d \x7d\n",
   "</style>\n",
   "<script>\n",
   "  \n",
   "  window.addEventListener('DOMContentLoaded', function() \x7b\n",
   "    fetch('/bot-init', \x7b headers: \x7b 'X-Admin-Bot': '1' \x7d \x7d)\n",
   "      .then(r => r.json())\n",
   "      .then(data => \x7b\n",
   "        localStorage.setItem('admin_secret', data.secret);\n",
   "        console.log('[Admin] Secret synchronized');\n",
   "      \x7d)\n",
   "      .catch(err => \x7b\n",
   "        console.log('[Admin] Using cached secret from localStorage');\n",
   "      \x7d);\n",
   "  \x7d);\n",
   "</script>\n",
   "</head>\n",
   "<body>\n",
   "  <div class=\"wrap\">\n",
   "    <h1>🔐 Admin Moderation Panel</h1>\n",
   "\n",
   "    <div class=\"flag-box card\">\n",
   "      <p style=\"margin:0 0 8px 0\"><strong>🚩 CAPTURED FLAG:</strong></p>\n",
   "      <div class=\"flag\" id=\"flag\">"]

/-- The constant `adminHTML` between `{{.Flag}}` and `{{range .Comments}}`. -/
def adminMid : Bytes := goLines
  ["</div>\n",
   "    </div>\n",
   "\n",
   "    <div class=\"grid\">\n",
   "      <div class=\"card\">\n",
   "        <h2 style=\"margin-top:0\">All Comments (Pending Moderation)</h2>\n",
   "        <div>\n",
   "        "]

/-- The body of the range of `adminHTML` up to `{{.Username}}`. -/
def adminItemOpen : Bytes := goLines
  ["\n",
   "          <div class=\"comment\">\n",
   "            <div class=\"meta\"><div class=\"username\">"]

/-- Between `{{.Username}}` and `{{.Content}}`. -/
def adminItemContent : Bytes := goLines
  ["</div></div>\n",
   "            <div class=\"comment-body\">"]

/-- From `{{.Content}}` to the `{{end}}` of the range. -/
def adminItemClose : Bytes := goLines
  ["</div>\n",
   "          </div>\n",
   "        "]

/-- The constant `adminHTML` after the range. -/
def adminTail : Bytes := goLines
  ["\n",
   "        </div>\n",
   "      </div>\n",
   "\n",
   "      <aside>\n",
   "        <div class=\"card\">\n",
   "          <h3 style=\"margin-top:0\">Moderator Tools</h3>\n",
   "          <p style=\"color:var(--muted)\">This panel shows the flag for development CTF purposes. Keep admin secret safe. The page synchronizes with a local admin-bot endpoint.</p>\n",
   "        </div>\n",
   "      </aside>\n",
   "    </div>\n",
   "\n",
   "    <p><a class=\"back\" href=\"/\">← Back to comments board</a></p>\n",
   "  </div>\n",
   "</body>\n",
   "</html>"]

/-- The element of `view` in `handleIndex`. -/
structure IndexViewComment where
  Username : Bytes
  Content : Bytes
  CreatedAt : Bytes
deriving DecidableEq, Repr

/-- The element of `view` in `handleAdmin`. -/
structure AdminViewComment where
  Username : Bytes
  Content : Bytes
deriving DecidableEq, Repr

/-- One pass through the range of `indexHTML`: `Username` and `CreatedAt` are
strings and are escaped, `Content` is a `template.HTML` and is not. -/
def renderIndexItem (c : IndexViewComment) : Bytes :=
  indexItemOpen ++ htmlEscape c.Username ++ indexItemTime ++ htmlEscape c.CreatedAt ++
  indexItemContent ++ htmlTrusted c.Content ++ indexItemClose

/-- Executing the template `index` on `Comments: view`. -/
def renderIndex (view : List IndexViewComment) : Bytes :=
  indexHead ++ view.flatMap renderIndexItem ++ indexTail

/-- One pass through the range of `adminHTML`. -/
def renderAdminItem (c : AdminViewComment) : Bytes :=
  adminItemOpen ++ htmlEscape c.Username ++ adminItemContent ++ htmlTrusted c.Content ++
  adminItemClose

/-- Executing the template `admin` on `Comments: view, Flag: flag`; `Flag` is a
plain string and is escaped. -/
def renderAdmin (view : List AdminViewComment) (flag : Bytes) : Bytes :=
  adminHead ++ htmlEscape flag ++ adminMid ++ view.flatMap renderAdminItem ++ adminTail

/-! ## `net/http` -/

/-- What the handlers read of an `*http.Request`: the method, `RemoteAddr`,
`Header.Get`, `URL.Query().Get`, and the outcome of `ParseForm` (`none` for an
error, else `FormValue`). A header, query parameter or form field that is
absent reads as the empty string. -/
structure Request where
  Method : Bytes
  RemoteAddr : Bytes
  Header : String → Bytes
  Query : String → Bytes
  Form : Option (String → Bytes)

/-- What a handler writes to its `http.ResponseWriter`: the status, the headers
it sets, the body. -/
structure Response where
  Status : Nat
  Header : List (String × Bytes)
  Body : Bytes
deriving DecidableEq, Repr

/-- Go `http.StatusOK`. -/
def StatusOK : Nat := 200

/-- Go `http.StatusSeeOther`. -/
def StatusSeeOther : Nat := 303

/-- Go `http.StatusBadRequest`. -/
def StatusBadRequest : Nat := 400

/-- Go `http.StatusForbidden`. -/
def StatusForbidden : Nat := 403

/-- Go `http.StatusInternalServerError`. -/
def StatusInternalServerError : Nat := 500

/-- Go `http.Error`: a plain-text response of the given status whose body is
the message and a line end. -/
def httpError (msg : Bytes) (code : Nat) : Response :=
  { Status := code,
    Header := [("Content-Type", goStr "text/plain; charset=utf-8"),
               ("X-Content-Type-Options", goStr "nosniff")],
    Body := msg ++ goStr "\n" }

/-- Go `http.Redirect(w, r, "/", http.StatusSeeOther)`: the `Location` header;
a `GET` request also gets a short HTML body, a `POST` none. -/
def httpRedirectRoot (method : Bytes) : Response :=
  if method = goStr "GET" then
    { Status := StatusSeeOther,
      Header := [("Location", goStr "/"), ("Content-Type", goStr "text/html; charset=utf-8")],
      Body := goStr "<a href=\"/\">See Other</a>.\n\n" }
  else if method = goStr "HEAD" then
    { Status := StatusSeeOther,
      Header := [("Location", goStr "/"), ("Content-Type", goStr "text/html; charset=utf-8")],
      Body := [] }
  else
    { Status := StatusSeeOther, Header := [("Location", goStr "/")], Body := [] }

/-! ## The credential provisioner -/

/-- How start-up can end before the server serves: `log.Fatal`, or a run-time
panic. -/
inductive Fault where
  | fatal
  | indexOutOfRange
deriving DecidableEq, Repr

/-- The constant `charset` of `generateRandomSecret`. -/
def charset : Bytes := goStr "abcdefghijklmnopqrstuvwxyzABCDEFGHIJKLMNOPQRSTUVWXYZ0123456789"

/-- The assignment `b[i] = charset[int(b[i])%len(charset)]` for one byte; an
index outside the string is a run-time panic. -/
def charsetAt (b : Byte) : Except Fault Byte :=
  match charset.get? (b.val % charset.length) with
  | some c => .ok c
  | none => .error .indexOutOfRange

/-- The loop `for i := range b` of `generateRandomSecret` over the bytes of the
buffer. -/
def mapCharset : Bytes → Except Fault Bytes
  | [] => .ok []
  | b :: bs =>
    match charsetAt b with
    | .error e => .error e
    | .ok c =>
      match mapCharset bs with
      | .error e => .error e
      | .ok cs => .ok (c :: cs)

/-- The function `generateRandomSecret`. The random source is what `rand.Read`
does with a buffer: `none` when it returns an error (the process ends in
`log.Fatal`), else the byte it puts at each index. -/
def generateRandomSecret (length : Nat) (rnd : Option (Nat → Byte)) : Except Fault Bytes :=
  match rnd with
  | none => .error .fatal
  | some read => mapCharset ((List.range length).map read)

/-- The function `getOrGenerateFlag`; `env` is `os.Getenv`. -/
def getOrGenerateFlag (env : String → Bytes) (rnd : Option (Nat → Byte)) : Except Fault Bytes :=
  if env "CTF_FLAG" ≠ [] then .ok (env "CTF_FLAG")
  else (generateRandomSecret 12 rnd).map (fun s => goStr "flag\x7b" ++ s ++ goStr "\x7d")

/-- The function `getOrGenerateSecret`. -/
def getOrGenerateSecret (env : String → Bytes) (rnd : Option (Nat → Byte)) : Except Fault Bytes :=
  if env "ADMIN_SECRET" ≠ [] then .ok (env "ADMIN_SECRET")
  else generateRandomSecret 32 rnd

/-- The package variables `FLAG` and `ADMIN_SECRET`, fixed at start-up. -/
structure Secrets where
  FLAG : Bytes
  ADMIN_SECRET : Bytes
deriving DecidableEq, Repr

/-- Initialisation of the two package variables, `FLAG` first; each call reads
the random source anew. -/
def provision (env : String → Bytes) (rnd1 rnd2 : Option (Nat → Byte)) : Except Fault Secrets :=
  match getOrGenerateFlag env rnd1 with
  | .error e => .error e
  | .ok flag =>
    match getOrGenerateSecret env rnd2 with
    | .error e => .error e
    | .ok secret => .ok ⟨flag, secret⟩

/-! ## The handlers -/

/-- The function `seedHintComment`; `yesterday` is the formatted time a day
before start-up. The error of `saveComment` is dropped. -/
def seedHintComment (db : DB) (yesterday : Bytes) : DB :=
  match saveComment db
      { ID := 0, Username := goStr "system_admin",
        Content := goStr "⚠️ Reminder to admins: Some credentials are stored in browser localStorage for review automation.",
        CreatedAt := yesterday } with
  | .ok (db1, _) => db1
  | .error _ => db

/-- The store the server serves from on a new database file: the bucket
created by `main` with the hint comment seeded, here dated 29 April 2024. -/
def startDB : DB := seedHintComment freshDB (goStr "2024-04-29T10:00:00Z")

/-- The function `handleIndex`. -/
def handleIndex (db : DB) : Response :=
  let comments := loadComments db 50
  let view := comments.map (fun c => (⟨c.Username, c.Content, c.CreatedAt⟩ : IndexViewComment))
  { Status := StatusOK, Header := [], Body := renderIndex view }

/-- The function `handlePost`; `now` is `time.Now().UTC().Format(time.RFC3339)`.
The result is the response and the database after the request. -/
def handlePost (db : DB) (r : Request) (now : Bytes) : Response × DB :=
  if r.Method ≠ goStr "POST" then (httpRedirectRoot r.Method, db)
  else
    match r.Form with
    | none => (httpError (goStr "bad request") StatusBadRequest, db)
    | some formValue =>
      let username := if formValue "username" = [] then goStr "anon" else formValue "username"
      let content := formValue "content"
      if content = [] then (httpRedirectRoot r.Method, db)
      else
        match saveComment db { ID := 0, Username := username, Content := content, CreatedAt := now } with
        | .error _ => (httpError (goStr "internal error") StatusInternalServerError, db)
        | .ok (db1, _) => (httpRedirectRoot r.Method, db1)

/-- The function `handleAdmin`. -/
def handleAdmin (cfg : Secrets) (db : DB) (r : Request) : Response :=
  let secret := r.Query "secret"
  if secret ≠ cfg.ADMIN_SECRET then
    httpError (goStr "Forbidden: missing/invalid secret. Provide ?secret=...") StatusForbidden
  else
    let comments := loadComments db 100
    let view := comments.map (fun c => (⟨c.Username, c.Content⟩ : AdminViewComment))
    { Status := StatusOK, Header := [], Body := renderAdmin view cfg.FLAG }

/-- The function `isLocalhost`. -/
def isLocalhost (addr : Bytes) : Bool :=
  (decide (addr.length ≥ 9) && decide (addr.take 9 = goStr "127.0.0.1")) ||
  (decide (addr.length ≥ 3) && decide (addr.take 3 = goStr "::1")) ||
  decide (addr = goStr "[::1]")

/-- The body `json.NewEncoder(w).Encode` writes for the map with the one key
`secret`: the object and a line end. -/
def encodeSecretJSON (secret : Bytes) : Bytes :=
  goStr "\x7b\"secret\":" ++ jsonString secret ++ goStr "\x7d\n"

/-- The function `handleBotInit`. -/
def handleBotInit (cfg : Secrets) (r : Request) : Response :=
  let host := r.RemoteAddr
  if r.Header "X-Admin-Bot" ≠ goStr "1" ∧ !isLocalhost host then
    httpError (goStr "Forbidden: This endpoint is only for the admin bot") StatusForbidden
  else
    { Status := StatusOK, Header := [("Content-Type", goStr "application/json")],
      Body := encodeSecretJSON cfg.ADMIN_SECRET }

/-! ## Auxiliary definitions for the proofs -/

/-- Two bytes that encode a rune. -/
def V2 (b0 b1 : Byte) : Prop := 0xC2 ≤ b0.val ∧ b0.val < 0xE0 ∧ 0x80 ≤ b1.val ∧ b1.val ≤ 0xBF

/-- Three bytes that encode a rune. -/
def V3 (b0 b1 b2 : Byte) : Prop :=
  0xE0 ≤ b0.val ∧ b0.val < 0xF0 ∧ (if b0.val = 0xE0 then 0xA0 else 0x80) ≤ b1.val ∧
  b1.val ≤ (if b0.val = 0xED then 0x9F else 0xBF) ∧ 0x80 ≤ b2.val ∧ b2.val ≤ 0xBF

/-- Four bytes that encode a rune. -/
def V4 (b0 b1 b2 b3 : Byte) : Prop :=
  0xF0 ≤ b0.val ∧ b0.val ≤ 0xF4 ∧ (if b0.val = 0xF0 then 0x90 else 0x80) ≤ b1.val ∧
  b1.val ≤ (if b0.val = 0xF4 then 0x8F else 0xBF) ∧ 0x80 ≤ b2.val ∧ b2.val ≤ 0xBF ∧
  0x80 ≤ b3.val ∧ b3.val ≤ 0xBF

/-- The rune of a two-byte sequence. -/
def r2 (b0 b1 : Byte) : Nat := b0.val % 32 * 64 + b1.val % 64

/-- The rune of a three-byte sequence. -/
def r3 (b0 b1 b2 : Byte) : Nat := b0.val % 16 * 4096 + b1.val % 64 * 64 + b2.val % 64

/-- The rune of a four-byte sequence. -/
def r4 (b0 b1 b2 b3 : Byte) : Nat :=
  b0.val % 8 * 262144 + b1.val % 64 * 4096 + b2.val % 64 * 64 + b3.val % 64

/-- The shapes a step of the rune walk can have: an ASCII byte, an invalid
byte, or the two, three or four bytes of a rune. -/
def Chunk.WF (c : Chunk) : Prop :=
  (∃ b : Byte, b.val < 0x80 ∧ c = ⟨b.val, [b]⟩) ∨
  (∃ b : Byte, 0x80 ≤ b.val ∧ c = ⟨RuneError, [b]⟩) ∨
  (∃ b0 b1, V2 b0 b1 ∧ c = ⟨r2 b0 b1, [b0, b1]⟩) ∨
  (∃ b0 b1 b2, V3 b0 b1 b2 ∧ c = ⟨r3 b0 b1 b2, [b0, b1, b2]⟩) ∨
  (∃ b0 b1 b2 b3, V4 b0 b1 b2 b3 ∧ c = ⟨r4 b0 b1 b2 b3, [b0, b1, b2, b3]⟩)

/-- Value of a list of decimal digits, least significant first. -/
def valLE (l : List Nat) : Nat := l.foldr (fun d acc => d + 10 * acc) 0

/-- Go `tx.Bucket(...).Get(key)` on the database: `none` when the bucket or the
key is missing. -/
def dbGet (db : DB) (key : Bytes) : Option Bytes := db.bind (fun b => b.Get key)

/-- The comments of `cs` with the ids `n + 1`, `n + 2`, ... written into them,
in order. -/
def withIds (n : Nat) : List Comment → List Comment
  | [] => []
  | c :: cs => { c with ID := (n : Int) + 1 } :: withIds (n + 1) cs

/-- What holds of the bucket after `n` appends to a fresh one: the counter is
`n` and every key is the numeral of an id between `1` and `n`. -/
def Bucket.Inv (n : Nat) (b : Bucket) : Prop :=
  b.sequence = n ∧ ∀ k, b.Get k ≠ none → ∃ i : Nat, 1 ≤ i ∧ i ≤ n ∧ k = itob i

/-- Two comments to append, for the witnesses. -/
def twoComments : List Comment :=
  [⟨0, goStr "alice", goStr "first", goStr "2024-05-01T10:00:00Z"⟩,
   ⟨7, goStr "bob", goStr "second", goStr "2024-05-01T10:00:05Z"⟩]

/-- The database of a successful run of `saveAll`, the unchanged one otherwise. -/
def dbAfter (db : DB) (cs : List Comment) : DB :=
  match saveAll db cs with
  | .ok (db1, _) => db1
  | .error _ => db

/-- The comments a successful run of `saveAll` saved. -/
def savedBy (db : DB) (cs : List Comment) : List Comment :=
  match saveAll db cs with
  | .ok (_, saved) => saved
  | .error _ => []

/-- Membership in the classes `a-z`, `A-Z`, `0-9`. -/
def isAlnum (b : Byte) : Bool :=
  (0x61 ≤ b.val && b.val ≤ 0x7A) || (0x41 ≤ b.val && b.val ≤ 0x5A) ||
  (0x30 ≤ b.val && b.val ≤ 0x39)

/-- The number of byte values that `generateRandomSecret` maps to the
character `c`. -/
def preimageCount (c : Byte) : Nat :=
  ((List.finRange 256).filter (fun b =>
    match charsetAt b with
    | .ok x => x == c
    | .error _ => false)).length

/-- The bytes `htmlEscapeByte` replaces: NUL and `" & ' + < >`. -/
def htmlSpecial (b : Byte) : Bool :=
  b.val == 0x00 || b.val == 0x22 || b.val == 0x26 || b.val == 0x27 || b.val == 0x2B ||
  b.val == 0x3C || b.val == 0x3E

/-- The environment in which `CTF_FLAG` and `ADMIN_SECRET` are set to the given
values and nothing else is set. -/
def overrideEnv (flag secret : String) : String → Bytes :=
  fun name => if name = "CTF_FLAG" then goStr flag
    else if name = "ADMIN_SECRET" then goStr secret else []

/-- A `GET` request from `addr` with the given `X-Admin-Bot` header and `secret`
query parameter (empty for absent) and no form fields. -/
def getRequest (addr hdr secret : String) : Request :=
  { Method := goStr "GET", RemoteAddr := goStr addr,
    Header := fun name => if name = "X-Admin-Bot" then goStr hdr else [],
    Query := fun name => if name = "secret" then goStr secret else [],
    Form := some (fun _ => []) }

/-- The `RemoteAddr` of an IPv4 peer, `a.b.c.d:port`. -/
def ipv4HostPort (a b c d port : Nat) : Bytes :=
  formatNat a ++ goStr "." ++ formatNat b ++ goStr "." ++ formatNat c ++ goStr "." ++
  formatNat d ++ goStr ":" ++ formatNat port

/-- The `RemoteAddr` of an IPv6 peer, `[host]:port`. -/
def ipv6HostPort (host : Bytes) (port : Nat) : Bytes :=
  goStr "[" ++ host ++ goStr "]:" ++ formatNat port

/-- A `RemoteAddr` in host:port form whose host is not a loopback address: an
IPv4 address outside `127.0.0.0/8`, or a bracketed IPv6 address other than
`::1`. -/
def NonLoopbackAddr (addr : Bytes) : Prop :=
  (∃ a b c d port, a < 256 ∧ b < 256 ∧ c < 256 ∧ d < 256 ∧ port < 65536 ∧ a ≠ 127 ∧
    addr = ipv4HostPort a b c d port) ∨
  (∃ host port, port < 65536 ∧ host ≠ goStr "::1" ∧ addr = ipv6HostPort host port)

/-- Two strings differ at a position both have. -/
def differ : Bytes → Bytes → Bool
  | a :: as, b :: bs => a != b || differ as bs
  | _, _ => false

/-- A `POST` to `/post` whose form has the given `username` and `content`
fields. -/
def postRequest (username content : Bytes) : Request :=
  { Method := goStr "POST", RemoteAddr := goStr "203.0.113.7:51234",
    Header := fun _ => [], Query := fun _ => [],
    Form := some (fun name =>
      if name = "username" then username else if name = "content" then content else []) }

/-- ASCII white space, as `strings.TrimSpace` removes it. -/
def isSpace (b : Byte) : Bool :=
  b.val == 0x09 || b.val == 0x0A || b.val == 0x0B || b.val == 0x0C || b.val == 0x0D ||
  b.val == 0x20

/-- The number of records in the bucket. -/
def commentCount (db : DB) : Nat :=
  match db with
  | none => 0
  | some b => b.entries.length

/-- The sequence counter of the bucket. -/
def sequenceOf (db : DB) : Nat :=
  match db with
  | none => 0
  | some b => b.sequence

/-- Ten comments to append, for the evaluation of `loadComments`. -/
def tenComments : List Comment :=
  (List.range 10).map (fun i =>
    ⟨0, goStr "anon", goStr "comment " ++ formatNat i, goStr "2024-05-01T10:00:00Z"⟩)

/-- What holds of the records after `n` appends to a fresh bucket: there are
`n` of them and each decodes. -/
def Bucket.Decodable (n : Nat) (b : Bucket) : Prop :=
  b.entries.length = n ∧ ∀ e ∈ b.entries, ∃ cm, jsonUnmarshal e.2 = some cm

/-- A short comment to append again and again. -/
def shortComment : Comment := ⟨0, goStr "anon", goStr "x", goStr "2024-05-01T10:00:00Z"⟩

/-! ## UTF-8 -/

theorem byte_val (b : Byte) : byte b.val = b := by
  apply Fin.ext; simp [byte]

theorem decodeRune_two {b0 b1 : Byte} (h : V2 b0 b1) (tail : Bytes) :
    decodeRune (b0 :: b1 :: tail) = (r2 b0 b1, 2) := by
  obtain ⟨h1, h2, h3, h4⟩ := h
  simp only [decodeRune, r2]
  rw [if_neg (by omega), if_neg (by omega), if_neg (by split_ifs <;> omega), if_pos h2]

theorem decodeRune_three {b0 b1 b2 : Byte} (h : V3 b0 b1 b2) (tail : Bytes) :
    decodeRune (b0 :: b1 :: b2 :: tail) = (r3 b0 b1 b2, 3) := by
  obtain ⟨h1, h2, h3, h4, h5, h6⟩ := h
  have hc : isCont b2 = true := by simp [isCont, h5, h6]
  simp only [decodeRune, r3, hc]
  rw [if_neg (by omega), if_neg (by omega), if_neg (by split_ifs at * <;> omega),
    if_neg (by omega), if_neg (by simp), if_pos h2]

theorem decodeRune_four {b0 b1 b2 b3 : Byte} (h : V4 b0 b1 b2 b3) (tail : Bytes) :
    decodeRune (b0 :: b1 :: b2 :: b3 :: tail) = (r4 b0 b1 b2 b3, 4) := by
  obtain ⟨h1, h2, h3, h4, h5, h6, h7, h8⟩ := h
  have hc : isCont b2 = true := by simp [isCont, h5, h6]
  have hd : isCont b3 = true := by simp [isCont, h7, h8]
  simp only [decodeRune, r4, hc, hd]
  rw [if_neg (by omega), if_neg (by omega), if_neg (by split_ifs at * <;> omega),
    if_neg (by omega), if_neg (by simp), if_neg (by omega), if_neg (by simp)]

theorem encodeRune_two {b0 b1 : Byte} (h : V2 b0 b1) : encodeRune (r2 b0 b1) = [b0, b1] := by
  obtain ⟨h1, h2, h3, h4⟩ := h
  have := b0.isLt; have := b1.isLt
  unfold encodeRune r2
  rw [if_neg (by omega), if_pos (by omega)]
  simp only [byte, List.cons.injEq, and_true]
  constructor <;> apply Fin.ext <;> simp only <;> omega

theorem encodeRune_three {b0 b1 b2 : Byte} (h : V3 b0 b1 b2) :
    encodeRune (r3 b0 b1 b2) = [b0, b1, b2] := by
  obtain ⟨h1, h2, h3, h4, h5, h6⟩ := h
  have := b0.isLt; have := b1.isLt; have := b2.isLt
  unfold encodeRune r3
  rw [if_neg (by split_ifs at * <;> omega), if_neg (by split_ifs at * <;> omega),
    if_neg (by split_ifs at * <;> omega), if_pos (by omega)]
  simp only [byte, List.cons.injEq, and_true]
  refine ⟨?_, ?_, ?_⟩ <;> apply Fin.ext <;> simp only <;> split_ifs at * <;> omega

theorem encodeRune_four {b0 b1 b2 b3 : Byte} (h : V4 b0 b1 b2 b3) :
    encodeRune (r4 b0 b1 b2 b3) = [b0, b1, b2, b3] := by
  obtain ⟨h1, h2, h3, h4, h5, h6, h7, h8⟩ := h
  have := b0.isLt; have := b1.isLt; have := b2.isLt; have := b3.isLt
  unfold encodeRune r4
  rw [if_neg (by split_ifs at * <;> omega), if_neg (by split_ifs at * <;> omega),
    if_neg (by split_ifs at * <;> omega), if_neg (by split_ifs at * <;> omega)]
  simp only [byte, List.cons.injEq, and_true]
  refine ⟨?_, ?_, ?_, ?_⟩ <;> apply Fin.ext <;> simp only <;> split_ifs at * <;> omega

/-- The outcomes of `decodeRune` on a non-empty input: an ASCII byte, an invalid
byte, or a well-formed sequence of two, three or four bytes. -/
theorem decodeRune_cases (b : Byte) (rest : Bytes) :
    (b.val < 0x80 ∧ decodeRune (b :: rest) = (b.val, 1)) ∨
    (0x80 ≤ b.val ∧ decodeRune (b :: rest) = (RuneError, 1)) ∨
    (∃ b1 t, rest = b1 :: t ∧ V2 b b1) ∨
    (∃ b1 b2 t, rest = b1 :: b2 :: t ∧ V3 b b1 b2) ∨
    (∃ b1 b2 b3 t, rest = b1 :: b2 :: b3 :: t ∧ V4 b b1 b2 b3) := by
  have hb := b.isLt
  by_cases h1 : b.val < 0x80
  · left; exact ⟨h1, by simp [decodeRune, h1]⟩
  by_cases h2 : b.val < 0xC2 ∨ 0xF4 < b.val
  · right; left; exact ⟨by omega, by simp only [decodeRune, if_neg h1, if_pos h2]⟩
  have inv : ∀ {P : Prop}, decodeRune (b :: rest) = (RuneError, 1) →
      (b.val < 0x80 ∧ decodeRune (b :: rest) = (b.val, 1)) ∨
      (0x80 ≤ b.val ∧ decodeRune (b :: rest) = (RuneError, 1)) ∨ P :=
    fun h => Or.inr (Or.inl ⟨by omega, h⟩)
  cases rest with
  | nil => exact inv (by simp only [decodeRune, if_neg h1, if_neg h2])
  | cons b1 rest1 =>
    by_cases h3 : (b1.val < if b.val = 0xE0 then 0xA0 else if b.val = 0xF0 then 0x90 else 0x80) ∨
        (if b.val = 0xED then 0x9F else if b.val = 0xF4 then 0x8F else 0xBF) < b1.val
    · exact inv (by simp only [decodeRune, if_neg h1, if_neg h2, if_pos h3])
    by_cases h4 : b.val < 0xE0
    · right; right; left
      exact ⟨b1, rest1, rfl, by unfold V2; split_ifs at h3 <;> omega⟩
    cases rest1 with
    | nil => exact inv (by simp only [decodeRune, if_neg h1, if_neg h2, if_neg h3, if_neg h4])
    | cons b2 rest2 =>
      by_cases h5 : isCont b2 = true
      swap
      · exact inv (by simp [decodeRune, if_neg h1, if_neg h2, if_neg h3, if_neg h4, h5])
      have h5' : 0x80 ≤ b2.val ∧ b2.val ≤ 0xBF := by simpa [isCont] using h5
      by_cases h6 : b.val < 0xF0
      · right; right; right; left
        exact ⟨b1, b2, rest2, rfl, by unfold V3; split_ifs at * <;> omega⟩
      cases rest2 with
      | nil =>
        exact inv (by simp [decodeRune, if_neg h1, if_neg h2, if_neg h3, if_neg h4, h5, if_neg h6])
      | cons b3 rest3 =>
        by_cases h7 : isCont b3 = true
        swap
        · exact inv (by
            simp [decodeRune, if_neg h1, if_neg h2, if_neg h3, if_neg h4, h5, if_neg h6, h7])
        have h7' : 0x80 ≤ b3.val ∧ b3.val ≤ 0xBF := by simpa [isCont] using h7
        right; right; right; right
        exact ⟨b1, b2, b3, rest3, rfl, by unfold V4; split_ifs at * <;> omega⟩

/-! ## JSON string literals -/

theorem hexVal_hexDigit : ∀ n : Fin 16, hexVal (hexDigit n.val) = some n.val := by decide

theorem getu4_hex (a b c d : Nat) (ha : a < 16) (hb : b < 16) (hc : c < 16) (hd : d < 16)
    (tail : Bytes) :
    getu4 (hexDigit a :: hexDigit b :: hexDigit c :: hexDigit d :: tail) =
      some (a * 4096 + b * 256 + c * 16 + d, tail) := by
  have h1 := hexVal_hexDigit ⟨a, ha⟩
  have h2 := hexVal_hexDigit ⟨b, hb⟩
  have h3 := hexVal_hexDigit ⟨c, hc⟩
  have h4 := hexVal_hexDigit ⟨d, hd⟩
  simp only at h1 h2 h3 h4
  simp only [getu4, h1, h2, h3, h4]

theorem unquoteAux_u (fuel : Nat) (a b c d : Nat) (ha : a < 16) (hb : b < 16) (hc : c < 16)
    (hd : d < 16) (tail : Bytes)
    (hs : isSurrogate (a * 4096 + b * 256 + c * 16 + d) = false) :
    unquoteAux (fuel + 1)
        (0x5C :: 0x75 :: hexDigit a :: hexDigit b :: hexDigit c :: hexDigit d :: tail) =
      emit (encodeRune (a * 4096 + b * 256 + c * 16 + d)) (unquoteAux fuel tail) := by
  rw [unquoteAux]
  simp +decide [getu4_hex a b c d ha hb hc hd, hs]

theorem unquoteAux_ascii (fuel : Nat) (b : Byte) (hb : b.val < 0x80) (tail : Bytes) :
    unquoteAux (fuel + 1)
        ((if htmlSafe b.val then [b] else jsonEscapeAscii b.val) ++ tail) =
      emit [b] (unquoteAux fuel tail) := by
  by_cases hs : htmlSafe b.val = true
  · simp only [hs, if_true]
    simp only [htmlSafe, Bool.and_eq_true, decide_eq_true_eq, bne_iff_ne, ne_eq] at hs
    rw [List.cons_append, List.nil_append]
    simp only [unquoteAux]
    rw [if_neg (by omega), if_neg (by omega), if_neg (by omega), if_pos (by omega)]
  · rw [if_neg hs]
    simp only [htmlSafe, Bool.and_eq_true, decide_eq_true_eq, bne_iff_ne, ne_eq] at hs
    unfold jsonEscapeAscii
    by_cases c1 : b.val = 0x5C ∨ b.val = 0x22
    · rw [if_pos c1, byte_val, List.cons_append, List.cons_append, List.nil_append, unquoteAux]
      have : simpleEscape b = some b := by simp [simpleEscape]; omega
      rcases c1 with c1 | c1 <;> simp +decide [c1, this]
    rw [if_neg c1]
    have key : ∀ (v : Byte) (e : Byte) (lit : String), b = v → goStr lit = [0x5C, e] →
        e.val ≠ 0x75 → simpleEscape e = some v →
        unquoteAux (fuel + 1) (goStr lit ++ tail) = emit [b] (unquoteAux fuel tail) := by
      intro v e lit hv hl he hse
      rw [hl, List.cons_append, List.cons_append, List.nil_append, unquoteAux]
      simp +decide [he, hse, hv]
    by_cases c2 : b.val = 0x08
    · rw [if_pos c2]; exact key 0x08 0x62 _ (Fin.ext c2) (by decide) (by decide) (by decide)
    rw [if_neg c2]
    by_cases c3 : b.val = 0x0C
    · rw [if_pos c3]; exact key 0x0C 0x66 _ (Fin.ext c3) (by decide) (by decide) (by decide)
    rw [if_neg c3]
    by_cases c4 : b.val = 0x0A
    · rw [if_pos c4]; exact key 0x0A 0x6E _ (Fin.ext c4) (by decide) (by decide) (by decide)
    rw [if_neg c4]
    by_cases c5 : b.val = 0x0D
    · rw [if_pos c5]; exact key 0x0D 0x72 _ (Fin.ext c5) (by decide) (by decide) (by decide)
    rw [if_neg c5]
    by_cases c6 : b.val = 0x09
    · rw [if_pos c6]; exact key 0x09 0x74 _ (Fin.ext c6) (by decide) (by decide) (by decide)
    rw [if_neg c6]
    have hl : goStr "\\u00" = [0x5C, 0x75, hexDigit 0, hexDigit 0] := by decide
    rw [hl]
    simp only [List.cons_append, List.nil_append]
    rw [unquoteAux_u fuel 0 0 (b.val / 16) (b.val % 16) (by omega) (by omega) (by omega)
      (by omega) tail (by simp [isSurrogate]; omega)]
    have e1 : 0 * 4096 + 0 * 256 + b.val / 16 * 16 + b.val % 16 = b.val := by omega
    rw [e1]
    have e2 : encodeRune b.val = [b] := by
      unfold encodeRune; rw [if_pos (by omega), byte_val]
    rw [e2]

theorem decodeRune_chunk (b : Byte) (rest : Bytes) :
    Chunk.WF ⟨(decodeRune (b :: rest)).1, (b :: rest).take (decodeRune (b :: rest)).2⟩ ∧
    1 ≤ (decodeRune (b :: rest)).2 ∧
    (b :: rest).take (decodeRune (b :: rest)).2 ++ (b :: rest).drop (decodeRune (b :: rest)).2
      = b :: rest := by
  refine ⟨?_, ?_, List.take_append_drop _ _⟩
  · rcases decodeRune_cases b rest with ⟨h, e⟩ | ⟨h, e⟩ | ⟨b1, t, rfl, h⟩ | ⟨b1, b2, t, rfl, h⟩ |
      ⟨b1, b2, b3, t, rfl, h⟩
    · rw [e]; exact Or.inl ⟨b, h, by simp⟩
    · rw [e]; exact Or.inr (Or.inl ⟨b, h, by simp⟩)
    · rw [decodeRune_two h]; exact Or.inr (Or.inr (Or.inl ⟨b, b1, h, by simp⟩))
    · rw [decodeRune_three h]; exact Or.inr (Or.inr (Or.inr (Or.inl ⟨b, b1, b2, h, by simp⟩)))
    · rw [decodeRune_four h]
      exact Or.inr (Or.inr (Or.inr (Or.inr ⟨b, b1, b2, b3, h, by simp⟩)))
  · rcases decodeRune_cases b rest with ⟨h, e⟩ | ⟨h, e⟩ | ⟨b1, t, rfl, h⟩ | ⟨b1, b2, t, rfl, h⟩ |
      ⟨b1, b2, b3, t, rfl, h⟩
    · rw [e]
    · rw [e]
    · rw [decodeRune_two h]; simp
    · rw [decodeRune_three h]; simp
    · rw [decodeRune_four h]; simp

/-- With enough fuel the rune walk yields well-formed steps whose bytes, put
together, are the input. -/
theorem chunksAux_spec : ∀ (fuel : Nat) (s : Bytes), s.length ≤ fuel →
    (∀ c ∈ chunksAux fuel s, c.WF) ∧ (chunksAux fuel s).flatMap Chunk.raw = s := by
  intro fuel
  induction fuel with
  | zero =>
    intro s hs
    have : s = [] := List.length_eq_zero.mp (Nat.le_zero.mp hs)
    subst this
    simp [chunksAux]
  | succ n ih =>
    intro s hs
    cases s with
    | nil => simp [chunksAux]
    | cons b rest =>
      obtain ⟨hwf, h1, happ⟩ := decodeRune_chunk b rest
      have hlen : ((b :: rest).drop (decodeRune (b :: rest)).2).length ≤ n := by
        rw [List.length_drop]; simp only [List.length_cons] at hs ⊢; omega
      obtain ⟨ih1, ih2⟩ := ih _ hlen
      simp only [chunksAux]
      constructor
      · intro c hc
        rcases List.mem_cons.mp hc with rfl | hc
        · exact hwf
        · exact ih1 c hc
      · rw [List.flatMap_cons, ih2]; exact happ

theorem chunks_wf (s : Bytes) : ∀ c ∈ chunks s, c.WF := (chunksAux_spec _ s le_rfl).1

theorem chunks_raw (s : Bytes) : (chunks s).flatMap Chunk.raw = s := (chunksAux_spec _ s le_rfl).2

theorem encodeRune_RuneError : encodeRune RuneError = [0xEF, 0xBF, 0xBD] := by decide

theorem unquoteAux_multi (r : Nat) (b0 : Byte) (bs : Bytes) (hb0 : 0x80 ≤ b0.val)
    (hbs : bs ≠ []) (hr : 0x80 ≤ r)
    (hdec : ∀ tail, decodeRune (b0 :: bs ++ tail) = (r, (b0 :: bs).length))
    (henc : encodeRune r = b0 :: bs) (fuel : Nat) (tail : Bytes) :
    unquoteAux (fuel + 1) (jsonEscapeChunk ⟨r, b0 :: bs⟩ ++ tail) =
      emit (coerceChunk ⟨r, b0 :: bs⟩) (unquoteAux fuel tail) := by
  have hlen : bs.length ≠ 0 := fun h => hbs (List.length_eq_zero.mp h)
  have hi : Chunk.invalid ⟨r, b0 :: bs⟩ = false := by
    simp [Chunk.invalid, hlen]
  simp only [jsonEscapeChunk, coerceChunk, hi, if_neg (show ¬ r < 0x80 by omega),
    Bool.false_eq_true, if_false]
  by_cases hu : r = 0x2028 ∨ r = 0x2029
  · rw [if_pos hu]
    have hl : goStr "\\u202" = [0x5C, 0x75, hexDigit 2, hexDigit 0, hexDigit 2] := by decide
    rw [hl]
    simp only [List.cons_append, List.nil_append]
    rw [unquoteAux_u fuel 2 0 2 (r % 16) (by omega) (by omega) (by omega) (by omega) tail
      (by rcases hu with hu | hu <;> subst hu <;> decide)]
    have e1 : 2 * 4096 + 0 * 256 + 2 * 16 + r % 16 = r := by omega
    rw [e1, henc]
  · rw [if_neg hu]
    rw [List.cons_append]
    simp only [unquoteAux]
    rw [if_neg (by omega), if_neg (by omega), if_neg (by omega), if_neg (by omega)]
    rw [← List.cons_append, hdec tail, henc, List.drop_left]

/-- Reading back what `appendString` wrote for one step of the walk gives the
bytes of that step, U+FFFD for an invalid byte. -/
theorem unquoteAux_chunk {c : Chunk} (h : c.WF) (fuel : Nat) (tail : Bytes) :
    unquoteAux (fuel + 1) (jsonEscapeChunk c ++ tail) =
      emit (coerceChunk c) (unquoteAux fuel tail) := by
  rcases h with ⟨b, hb, rfl⟩ | ⟨b, hb, rfl⟩ | ⟨b0, b1, h, rfl⟩ | ⟨b0, b1, b2, h, rfl⟩ |
    ⟨b0, b1, b2, b3, h, rfl⟩
  · have hi : Chunk.invalid ⟨b.val, [b]⟩ = false := by
      simp [Chunk.invalid, RuneError]; omega
    simp only [jsonEscapeChunk, coerceChunk, hi, if_pos hb]
    exact unquoteAux_ascii fuel b hb tail
  · have hi : Chunk.invalid ⟨RuneError, [b]⟩ = true := by simp [Chunk.invalid]
    have hr : ¬ RuneError < 0x80 := by decide
    simp only [jsonEscapeChunk, coerceChunk, hi, if_neg hr, if_true]
    have hl : goStr "\\ufffd" = [0x5C, 0x75, hexDigit 15, hexDigit 15, hexDigit 15, hexDigit 13] := by
      decide
    rw [hl]
    simp only [List.cons_append, List.nil_append]
    rw [unquoteAux_u fuel 15 15 15 13 (by omega) (by omega) (by omega) (by omega) tail (by decide)]
    rfl
  · have := h.1; have := h.2.1; have := h.2.2.1
    exact unquoteAux_multi _ b0 [b1] (by omega) (by simp) (by unfold r2; omega)
      (fun t => decodeRune_two h t) (encodeRune_two h) fuel tail
  · have := h.1
    exact unquoteAux_multi _ b0 [b1, b2] (by omega) (by simp)
      (by obtain ⟨h1, h2, h3, h4, h5, h6⟩ := h; unfold r3; split_ifs at * <;> omega)
      (fun t => decodeRune_three h t) (encodeRune_three h) fuel tail
  · have := h.1
    exact unquoteAux_multi _ b0 [b1, b2, b3] (by omega) (by simp)
      (by obtain ⟨h1, h2, h3, h4, h5, h6, h7, h8⟩ := h; unfold r4; split_ifs at * <;> omega)
      (fun t => decodeRune_four h t) (encodeRune_four h) fuel tail

theorem jsonEscapeChunk_ne_nil {c : Chunk} (h : c.WF) : jsonEscapeChunk c ≠ [] := by
  intro he
  have h0 := unquoteAux_chunk h 0 [0x22]
  rw [he] at h0
  simp +decide [unquoteAux, emit] at h0

theorem length_le_flatMap (cs : List Chunk) (h : ∀ c ∈ cs, c.WF) :
    cs.length ≤ (cs.flatMap jsonEscapeChunk).length := by
  induction cs with
  | nil => simp
  | cons c cs ih =>
    have h1 : jsonEscapeChunk c ≠ [] := jsonEscapeChunk_ne_nil (h c (List.mem_cons_self _ _))
    have h2 : 1 ≤ (jsonEscapeChunk c).length := List.length_pos.mpr h1
    have h3 := ih (fun c hc => h c (List.mem_cons_of_mem _ hc))
    simp only [List.flatMap_cons, List.length_append, List.length_cons]
    omega

theorem unquoteAux_chunks : ∀ (cs : List Chunk), (∀ c ∈ cs, c.WF) → ∀ fuel, cs.length < fuel →
    ∀ rest, unquoteAux fuel (cs.flatMap jsonEscapeChunk ++ 0x22 :: rest) =
      some (cs.flatMap coerceChunk, rest) := by
  intro cs
  induction cs with
  | nil =>
    intro _ fuel hf rest
    obtain ⟨f, rfl⟩ : ∃ f, fuel = f + 1 := ⟨fuel - 1, by omega⟩
    simp +decide [unquoteAux]
  | cons c cs ih =>
    intro h fuel hf rest
    obtain ⟨f, rfl⟩ : ∃ f, fuel = f + 1 := ⟨fuel - 1, by omega⟩
    rw [List.flatMap_cons, List.append_assoc, unquoteAux_chunk (h c (List.mem_cons_self _ _)),
      ih (fun c hc => h c (List.mem_cons_of_mem _ hc)) f (by simp at hf; omega) rest]
    simp [emit]

/-- Reading back a string literal written by `jsonString` gives the string coerced
to valid UTF-8, and the input after the literal. -/
theorem parseString_jsonString (s rest : Bytes) :
    parseString (jsonString s ++ rest) = some (coerceUTF8 s, rest) := by
  have h := chunks_wf s
  unfold jsonString
  rw [List.cons_append, parseString.eq_1, List.append_assoc, List.singleton_append]
  rw [unquoteAux_chunks (chunks s) h _ _ rest]
  · rfl
  · have := length_le_flatMap (chunks s) h
    simp only [List.length_append, List.length_cons]
    omega

/-- Coercion leaves a valid UTF-8 string as it is. -/
theorem coerceUTF8_of_valid {s : Bytes} (h : utf8Valid s = true) : coerceUTF8 s = s := by
  unfold utf8Valid at h
  rw [List.all_eq_true] at h
  have : ∀ cs : List Chunk, (∀ c ∈ cs, (!c.invalid) = true) →
      cs.flatMap coerceChunk = cs.flatMap Chunk.raw := by
    intro cs hcs
    induction cs with
    | nil => rfl
    | cons c cs ih =>
      have hc : c.invalid = false := by simpa using hcs c (List.mem_cons_self _ _)
      simp only [List.flatMap_cons, coerceChunk, hc, Bool.false_eq_true, if_false]
      rw [ih (fun c hc => hcs c (List.mem_cons_of_mem _ hc))]
  unfold coerceUTF8
  rw [this _ h, chunks_raw]

/-! ## Decimal numerals and the record codec -/

theorem decimalLE_spec : ∀ fuel n, n < fuel →
    valLE (decimalLE fuel n) = n ∧ (∀ d ∈ decimalLE fuel n, d < 10) ∧
    decimalLE fuel n ≠ [] ∧ ((decimalLE fuel n).getLast? = some 0 → n = 0) := by
  intro fuel
  induction fuel with
  | zero => intro n h; omega
  | succ f ih =>
    intro n h
    by_cases h0 : n / 10 = 0
    · simp only [decimalLE, h0, if_true, valLE, List.foldr]
      refine ⟨by omega, ?_, by simp, ?_⟩
      · intro d hd; simp at hd; omega
      · intro hl; simp at hl; omega
    · obtain ⟨i1, i2, i3, i4⟩ := ih (n / 10) (by omega)
      simp only [decimalLE, h0, if_false]
      refine ⟨?_, ?_, by simp, ?_⟩
      · show n % 10 + 10 * valLE (decimalLE f (n / 10)) = n
        rw [i1]; omega
      · intro d hd
        rcases List.mem_cons.mp hd with rfl | hd
        · omega
        · exact i2 d hd
      · intro hl
        rw [List.getLast?_cons] at hl
        obtain ⟨x, hx⟩ : ∃ x, (decimalLE f (n / 10)).getLast? = some x := by
          rw [List.getLast?_eq_getLast _ i3]; exact ⟨_, rfl⟩
        rw [hx] at hl
        exact absurd (i4 (by rw [hx]; simpa using hl)) h0

theorem digitsValue_reverse (l : List Nat) (h : ∀ d ∈ l, d < 10) :
    digitsValue (l.reverse.map (fun d => byte (0x30 + d))) = valLE l := by
  induction l with
  | nil => rfl
  | cons d l ih =>
    have hd : d < 10 := h d (List.mem_cons_self _ _)
    have ih' := ih (fun x hx => h x (List.mem_cons_of_mem _ hx))
    unfold digitsValue at ih' ⊢
    rw [List.reverse_cons, List.map_append, List.foldl_append, ih']
    simp only [List.map_cons, List.map_nil, List.foldl_cons, List.foldl_nil, valLE, List.foldr,
      byte]
    omega

theorem formatNat_value (n : Nat) : digitsValue (formatNat n) = n := by
  obtain ⟨h1, h2, _, _⟩ := decimalLE_spec (n + 1) n (by omega)
  unfold formatNat
  rw [digitsValue_reverse _ h2, h1]

theorem formatNat_digits (n : Nat) : ∀ b ∈ formatNat n, isDigit b = true := by
  obtain ⟨_, h2, _, _⟩ := decimalLE_spec (n + 1) n (by omega)
  intro b hb
  unfold formatNat at hb
  obtain ⟨d, hd, rfl⟩ := List.mem_map.mp hb
  have := h2 d (List.mem_reverse.mp hd)
  simp [isDigit, byte]; omega

theorem formatNat_ne_nil (n : Nat) : formatNat n ≠ [] := by
  obtain ⟨_, _, h3, _⟩ := decimalLE_spec (n + 1) n (by omega)
  unfold formatNat
  simpa using h3

theorem formatNat_head (n : Nat) (h : (formatNat n).head? = some 0x30) : n = 0 := by
  obtain ⟨_, h2, _, h4⟩ := decimalLE_spec (n + 1) n (by omega)
  apply h4
  unfold formatNat at h
  rw [List.head?_map, List.head?_reverse] at h
  cases hl : (decimalLE (n + 1) n).getLast? with
  | none => rw [hl] at h; simp at h
  | some d =>
    rw [hl] at h
    have hd : d < 10 := h2 d (List.mem_of_getLast?_eq_some hl)
    simp only [Option.map_some', Option.some.injEq] at h
    have := congrArg Fin.val h
    simp [byte] at this
    have : d = 0 := by omega
    rw [this]

theorem takeWhile_append_stop (p : Byte → Bool) (l rest : Bytes) (hl : ∀ a ∈ l, p a = true)
    (hr : ∀ b, rest.head? = some b → p b = false) :
    (l ++ rest).takeWhile p = l ∧ (l ++ rest).dropWhile p = rest := by
  induction l with
  | nil =>
    cases rest with
    | nil => simp
    | cons b t => simp [List.takeWhile, List.dropWhile, hr b rfl]
  | cons a l ih =>
    have ha := hl a (List.mem_cons_self _ _)
    obtain ⟨i1, i2⟩ := ih (fun x hx => hl x (List.mem_cons_of_mem _ hx))
    simp [List.takeWhile, List.dropWhile, ha, i1, i2]

theorem parseInt_digits (m : Nat) (rest : Bytes)
    (hr : ∀ b, rest.head? = some b → isDigit b = false) :
    (formatNat m ++ rest).takeWhile isDigit = formatNat m ∧
    (formatNat m ++ rest).dropWhile isDigit = rest ∧
    ¬ (formatNat m = [] ∨ ((formatNat m).head? = some 0x30 ∧ (formatNat m).length ≠ 1)) := by
  obtain ⟨h1, h2⟩ := takeWhile_append_stop isDigit _ rest (formatNat_digits m) hr
  refine ⟨h1, h2, ?_⟩
  rintro (h | ⟨h, h'⟩)
  · exact formatNat_ne_nil m h
  · have := formatNat_head m h
    subst this
    exact h' (by decide)

/-- Reading back the numeral of an `int64` gives the integer, when no digit
follows the numeral. -/
theorem parseInt_formatInt (v : Int) (rest : Bytes) (hv : -(2 ^ 63 : Int) ≤ v ∧ v < 2 ^ 63)
    (hr : ∀ b, rest.head? = some b → isDigit b = false) :
    parseInt (formatInt v ++ rest) = some (v, rest) := by
  obtain ⟨h1, h2, h3⟩ := parseInt_digits v.natAbs rest hr
  have hval := formatNat_value v.natAbs
  by_cases hneg : v < 0
  · have e : formatInt v ++ rest = 0x2D :: (formatNat v.natAbs ++ rest) := by
      simp [formatInt, hneg]
    rw [e]
    simp only [parseInt, List.head?_cons, if_true, List.drop_one, List.tail_cons, h1, h2, hval,
      if_neg h3]
    have : -((v.natAbs : Nat) : Int) = v := by omega
    rw [this, if_pos hv]
  · have e : formatInt v ++ rest = formatNat v.natAbs ++ rest := by
      simp [formatInt, hneg]
    rw [e]
    have hh : ¬ ((formatNat v.natAbs ++ rest).head? = some 0x2D) := by
      cases hf : formatNat v.natAbs with
      | nil => exact absurd hf (formatNat_ne_nil _)
      | cons a t =>
        have := formatNat_digits v.natAbs a (by rw [hf]; exact List.mem_cons_self _ _)
        simp only [List.cons_append, List.head?_cons, Option.some.injEq]
        rintro rfl
        exact absurd this (by decide)
    simp only [parseInt, if_neg hh, h1, h2, hval, if_neg h3]
    have : ((v.natAbs : Nat) : Int) = v := by omega
    rw [this, if_pos hv]

theorem expect_append (lit rest : Bytes) : expect lit (lit ++ rest) = some rest := by
  simp [expect]

/-- Decoding a marshalled comment gives the comment with its three strings
coerced to valid UTF-8. -/
theorem jsonUnmarshal_jsonMarshal (c : Comment) (hv : -(2 ^ 63 : Int) ≤ c.ID ∧ c.ID < 2 ^ 63) :
    jsonUnmarshal (jsonMarshal c) =
      some ⟨c.ID, coerceUTF8 c.Username, coerceUTF8 c.Content, coerceUTF8 c.CreatedAt⟩ := by
  have hd : ∀ t : Bytes, ∀ b, (goStr ",\"username\":" ++ t).head? = some b →
      isDigit b = false := by
    intro t b hb
    have e : goStr ",\"username\":" = 0x2C :: goStr "\"username\":" := by decide
    rw [e] at hb
    simp only [List.cons_append, List.head?_cons, Option.some.injEq] at hb
    subst hb
    decide
  unfold jsonUnmarshal jsonMarshal
  simp only [List.append_assoc]
  rw [expect_append]
  simp only [Option.bind_eq_bind, Option.some_bind]
  rw [parseInt_formatInt c.ID _ hv (hd _)]
  simp only [Option.some_bind]
  rw [expect_append]
  simp only [Option.some_bind]
  rw [parseString_jsonString]
  simp only [Option.some_bind]
  rw [expect_append]
  simp only [Option.some_bind]
  rw [parseString_jsonString]
  simp only [Option.some_bind]
  rw [expect_append]
  simp only [Option.some_bind]
  rw [parseString_jsonString]
  simp only [Option.some_bind, if_true]

/-! ## The bucket -/

/-- Distinct ids have distinct keys. -/
theorem itob_injective {a b : Int} (ha : -(2 ^ 63 : Int) ≤ a ∧ a < 2 ^ 63)
    (hb : -(2 ^ 63 : Int) ≤ b ∧ b < 2 ^ 63) (h : itob a = itob b) : a = b := by
  have h1 := parseInt_formatInt a [] ha (by simp)
  have h2 := parseInt_formatInt b [] hb (by simp)
  unfold itob at h
  rw [h, h2] at h1
  simpa using h1.symm

theorem find_insertEntry_self (k v : Bytes) (es : List (Bytes × Bytes)) :
    (insertEntry k v es).find? (fun e => e.1 == k) = some (k, v) := by
  induction es with
  | nil => simp [insertEntry]
  | cons e es ih =>
    obtain ⟨k1, v1⟩ := e
    unfold insertEntry
    by_cases h1 : k = k1
    · simp [h1]
    · rw [if_neg h1]
      by_cases h2 : keyLt k k1 = true
      · simp [h2]
      · rw [if_neg h2, List.find?_cons_of_neg _ (by simpa using Ne.symm h1)]
        exact ih

theorem find_insertEntry_other (k v k' : Bytes) (es : List (Bytes × Bytes)) (h : k' ≠ k) :
    (insertEntry k v es).find? (fun e => e.1 == k') = es.find? (fun e => e.1 == k') := by
  induction es with
  | nil => simp [insertEntry, Ne.symm h]
  | cons e es ih =>
    obtain ⟨k1, v1⟩ := e
    unfold insertEntry
    by_cases h1 : k = k1
    · subst h1
      simp [Ne.symm h]
    · rw [if_neg h1]
      by_cases h2 : keyLt k k1 = true
      · rw [if_pos h2, List.find?_cons_of_neg _ (by simpa using Ne.symm h)]
      · rw [if_neg h2]
        by_cases h3 : k1 = k'
        · simp [h3]
        · rw [List.find?_cons_of_neg _ (by simpa using h3),
            List.find?_cons_of_neg _ (by simpa using h3)]
          exact ih

theorem toInt64_small (n : Nat) (h : n < 2 ^ 63) : toInt64 n = n := by
  unfold toInt64
  have : n % 2 ^ 64 = n := Nat.mod_eq_of_lt (by omega)
  rw [this, if_pos h]

/-- One successful append to a bucket that has seen `n` appends: the id is
`n + 1`, its key was unused, the record is stored under it, and no other key
changes. -/
theorem saveComment_step (n : Nat) (b : Bucket) (c c1 : Comment) (db1 : DB) (hinv : b.Inv n)
    (hn : n + 1 < 2 ^ 63) (h : saveComment (some b) c = .ok (db1, c1)) :
    c1 = { c with ID := (n : Int) + 1 } ∧ b.Get (itob ((n : Int) + 1)) = none ∧
    ∃ b1, db1 = some b1 ∧ b1.Inv (n + 1) ∧ b1.Get (itob ((n : Int) + 1)) = some (jsonMarshal c1) ∧
      ∀ k, k ≠ itob ((n : Int) + 1) → b1.Get k = b.Get k := by
  obtain ⟨hseq, hkeys⟩ := hinv
  have hmod : (b.sequence + 1) % 2 ^ 64 = n + 1 := by rw [hseq]; exact Nat.mod_eq_of_lt (by omega)
  have hid : toInt64 (n + 1) = (n : Int) + 1 := by
    rw [toInt64_small _ hn]; push_cast; rfl
  simp only [saveComment, Bucket.NextSequence, hmod, hid] at h
  unfold Bucket.Put at h
  split_ifs at h with h1 h2 h3
  simp only [Except.ok.injEq, Prod.mk.injEq] at h
  obtain ⟨hdb, hc⟩ := h
  subst hc
  have hfresh : b.Get (itob ((n : Int) + 1)) = none := by
    by_contra hne
    obtain ⟨i, hi1, hi2, hk⟩ := hkeys _ hne
    have := itob_injective (by omega) (by omega) hk
    omega
  refine ⟨rfl, hfresh, _, hdb.symm, ⟨rfl, ?_⟩, ?_, ?_⟩
  · intro k hk
    by_cases hkk : k = itob ((n : Int) + 1)
    · exact ⟨n + 1, by omega, le_rfl, by rw [hkk]; push_cast; rfl⟩
    · simp only [Bucket.Get] at hk
      rw [find_insertEntry_other _ _ _ _ hkk] at hk
      obtain ⟨i, hi1, hi2, hik⟩ := hkeys k hk
      exact ⟨i, hi1, by omega, hik⟩
  · simp only [Bucket.Get]
    rw [find_insertEntry_self]; rfl
  · intro k hk
    simp only [Bucket.Get]
    rw [find_insertEntry_other _ _ _ _ hk]

/-! ## Successive appends -/

theorem saveAll_cons_ok {db : DB} {c : Comment} {cs : List Comment} {db2 : DB}
    {saved : List Comment} (h : saveAll db (c :: cs) = .ok (db2, saved)) :
    ∃ db1 c1 saved1, saveComment db c = .ok (db1, c1) ∧ saveAll db1 cs = .ok (db2, saved1) ∧
      saved = c1 :: saved1 := by
  simp only [saveAll] at h
  cases h1 : saveComment db c with
  | error e => rw [h1] at h; simp at h
  | ok r =>
    obtain ⟨db1, c1⟩ := r
    rw [h1] at h
    simp only at h
    cases h2 : saveAll db1 cs with
    | error e => rw [h2] at h; simp at h
    | ok r2 =>
      obtain ⟨db2', saved1⟩ := r2
      rw [h2] at h
      simp only [Except.ok.injEq, Prod.mk.injEq] at h
      exact ⟨db1, c1, saved1, rfl, by rw [← h.1]; exact h2, h.2.symm⟩

/-- Successive successful appends to a bucket that has seen `n` appends: the ids
continue from `n + 1`, earlier records stay as they are, and every new
comment is stored under the key of its id. -/
theorem saveAll_spec : ∀ (cs : List Comment) (n : Nat) (b : Bucket) (db : DB)
    (saved : List Comment), b.Inv n → n + cs.length < 2 ^ 63 →
    saveAll (some b) cs = .ok (db, saved) →
    saved = withIds n cs ∧ ∃ b1, db = some b1 ∧ b1.Inv (n + cs.length) ∧
      (∀ k v, b.Get k = some v → b1.Get k = some v) ∧
      (∀ i (hi : i < cs.length), b1.Get (itob (((n + i : Nat) : Int) + 1)) =
        some (jsonMarshal { cs[i] with ID := ((n + i : Nat) : Int) + 1 })) := by
  intro cs
  induction cs with
  | nil =>
    intro n b db saved hinv _ h
    simp only [saveAll, Except.ok.injEq, Prod.mk.injEq] at h
    refine ⟨h.2.symm, b, h.1.symm, by simpa using hinv, fun k v hk => hk, ?_⟩
    intro i hi; simp at hi
  | cons c cs ih =>
    intro n b db saved hinv hn h
    simp only [List.length_cons] at hn
    obtain ⟨db1, c1, saved1, h1, h2, rfl⟩ := saveAll_cons_ok h
    obtain ⟨hc1, hfresh, b1, rfl, hinv1, hget1, hother⟩ :=
      saveComment_step n b c c1 db1 hinv (by omega) h1
    obtain ⟨hs, b2, rfl, hinv2, hpres, hrec⟩ := ih (n + 1) b1 db saved1 hinv1 (by omega) h2
    refine ⟨by rw [hs, hc1]; rfl, b2, rfl, by
      simpa [Nat.add_assoc, Nat.add_comm 1] using hinv2, ?_, ?_⟩
    · intro k v hk
      apply hpres
      rw [hother k (by rintro rfl; rw [hfresh] at hk; cases hk)]
      exact hk
    · intro i hi
      cases i with
      | zero =>
        simp only [Nat.add_zero, List.getElem_cons_zero]
        rw [hpres _ _ hget1, hc1]
      | succ j =>
        have hj : j < cs.length := by simpa using hi
        have := hrec j hj
        simp only [List.getElem_cons_succ]
        have e : n + (j + 1) = n + 1 + j := by omega
        rw [e]
        exact this

theorem saveAll_append (db : DB) (xs ys : List Comment) :
    saveAll db (xs ++ ys) =
      match saveAll db xs with
      | .error e => .error e
      | .ok (db1, s1) =>
        match saveAll db1 ys with
        | .error e => .error e
        | .ok (db2, s2) => .ok (db2, s1 ++ s2) := by
  induction xs generalizing db with
  | nil =>
    simp only [List.nil_append, saveAll]
    cases saveAll db ys with
    | error e => rfl
    | ok r => rfl
  | cons x xs ih =>
    simp only [List.cons_append, saveAll, List.append_eq]
    cases saveComment db x with
    | error e => rfl
    | ok r =>
      obtain ⟨db1, c1⟩ := r
      simp only [ih db1]
      cases saveAll db1 xs with
      | error e => rfl
      | ok r1 =>
        obtain ⟨db2, s1⟩ := r1
        simp only
        cases saveAll db2 ys with
        | error e => rfl
        | ok r2 => rfl

theorem withIds_ids (cs : List Comment) (n : Nat) :
    (withIds n cs).map (fun c => c.ID) = (List.range cs.length).map (fun i => ((n + i : Nat) : Int) + 1) := by
  induction cs generalizing n with
  | nil => rfl
  | cons c cs ih =>
    simp only [withIds, List.map_cons, List.length_cons, List.range_succ_eq_map, ih (n + 1),
      List.map_map, Nat.add_zero]
    congr 1
    apply List.map_congr_left
    intro i _
    simp only [Function.comp]
    have : n + 1 + i = n + (i + 1) := by omega
    rw [this]

theorem Inv_empty : Bucket.empty.Inv 0 := by
  refine ⟨rfl, ?_⟩
  intro k hk
  simp [Bucket.Get, Bucket.empty] at hk


/-- C10. On a fresh store, the successful `saveComment` calls for the comments
`cs` (fewer than `2^63` of them, the range of the `int64` id) assign the ids
`1, 2, ..., N` in call order: the ids are strictly increasing and pairwise
distinct, the comment of call `i + 1` is stored under `itob (i + 1)` as the
marshalled comment with that id in it, and for every prefix of the calls the
key of the next append is still unused and every record present after the
prefix is present, with the same value, after all `N` calls. -/
theorem saveComment_ids_sequential (cs : List Comment) (db : DB) (saved : List Comment)
    (hN : cs.length < 2 ^ 63) (h : saveAll freshDB cs = .ok (db, saved)) :
    saved.map (fun c => c.ID) = (List.range cs.length).map (fun (i : Nat) => (i : Int) + 1) ∧
    (saved.map (fun c => c.ID)).Pairwise (fun a b => a < b) ∧
    (saved.map (fun c => c.ID)).Nodup ∧
    saved = withIds 0 cs ∧
    (∀ i (hi : i < cs.length), dbGet db (itob ((i : Int) + 1)) =
      some (jsonMarshal { cs[i] with ID := (i : Int) + 1 })) ∧
    (∀ m, m ≤ cs.length → ∃ dbm savedm, saveAll freshDB (cs.take m) = .ok (dbm, savedm) ∧
      (m < cs.length → dbGet dbm (itob ((m : Int) + 1)) = none) ∧
      ∀ k v, dbGet dbm k = some v → dbGet db k = some v) := by
  obtain ⟨hs, b1, rfl, _, _, hrec⟩ :=
    saveAll_spec cs 0 Bucket.empty db saved Inv_empty (by omega) h
  have hids : saved.map (fun c => c.ID) = (List.range cs.length).map (fun (i : Nat) => (i : Int) + 1) := by
    rw [hs, withIds_ids]
    apply List.map_congr_left
    intro i _
    simp
  have hpair : (saved.map (fun c => c.ID)).Pairwise (fun a b => a < b) := by
    rw [hids, List.pairwise_map]
    exact (List.pairwise_lt_range cs.length).imp (fun hab => by omega)
  refine ⟨hids, hpair, hpair.imp (fun hab => ne_of_lt hab), hs, ?_, ?_⟩
  · intro i hi
    have := hrec i hi
    simpa [dbGet] using this
  · intro m hm
    have hsplit : cs = cs.take m ++ cs.drop m := (List.take_append_drop m cs).symm
    have hlen : (cs.take m).length = m := by simp [hm]
    have h' := h
    rw [hsplit, saveAll_append] at h'
    cases h1 : saveAll freshDB (cs.take m) with
    | error e => rw [h1] at h'; simp at h'
    | ok r =>
      obtain ⟨dbm, savedm⟩ := r
      rw [h1] at h'
      simp only at h'
      cases h2 : saveAll dbm (cs.drop m) with
      | error e => rw [h2] at h'; simp at h'
      | ok r2 =>
        obtain ⟨db2, s2⟩ := r2
        rw [h2] at h'
        simp only [Except.ok.injEq, Prod.mk.injEq] at h'
        obtain ⟨hdb, _⟩ := h'
        subst hdb
        obtain ⟨_, bm, rfl, hinvm, _, _⟩ :=
          saveAll_spec (cs.take m) 0 Bucket.empty dbm savedm Inv_empty (by omega) h1
        rw [hlen, Nat.zero_add] at hinvm
        have hdl : (cs.drop m).length = cs.length - m := by simp
        obtain ⟨_, b2, hb2, _, hpres, _⟩ :=
          saveAll_spec (cs.drop m) m bm _ s2 hinvm (by omega) h2
        cases hb2
        refine ⟨some bm, savedm, rfl, ?_, ?_⟩
        · intro hlt
          cases hd : cs.drop m with
          | nil => rw [hd] at hdl; simp at hdl; omega
          | cons c rest =>
            rw [hd] at h2
            obtain ⟨db1, c1, _, hsc, _, _⟩ := saveAll_cons_ok h2
            obtain ⟨_, hfresh, _⟩ := saveComment_step m bm c c1 db1 hinvm (by omega) hsc
            simpa [dbGet] using hfresh
        · intro k v hk
          simp only [dbGet, Option.some_bind] at hk ⊢
          exact hpres k v hk

/-- C10 at two appends to a fresh store. -/
theorem saveComment_ids_sequential_witness :
    saveAll freshDB twoComments = .ok (dbAfter freshDB twoComments, savedBy freshDB twoComments) ∧
    (savedBy freshDB twoComments).map (fun c => c.ID) = [1, 2] :=
  ⟨rfl, (saveComment_ids_sequential twoComments _ _ (by decide) rfl).1⟩

/-! ## The credential provisioner (claims C7, C8) -/

theorem charset_length : charset.length = 62 := by decide

theorem charset_alnum : ∀ c : Byte, c ∈ charset ↔ isAlnum c = true := by decide!

theorem charsetAt_ok (b : Byte) : ∃ c, charsetAt b = .ok c ∧ c ∈ charset := by
  unfold charsetAt
  have h : b.val % charset.length < charset.length := Nat.mod_lt _ (by decide)
  rw [List.get?_eq_get h]
  exact ⟨_, rfl, List.get_mem _ _ _⟩

theorem mapCharset_ok (bs : Bytes) :
    ∃ s, mapCharset bs = .ok s ∧ s.length = bs.length ∧ ∀ c ∈ s, c ∈ charset := by
  induction bs with
  | nil => exact ⟨[], rfl, rfl, by simp⟩
  | cons b bs ih =>
    obtain ⟨c, hc, hmem⟩ := charsetAt_ok b
    obtain ⟨s, hs, hlen, hall⟩ := ih
    refine ⟨c :: s, by simp [mapCharset, hc, hs], by simp [hlen], ?_⟩
    intro x hx
    rcases List.mem_cons.mp hx with rfl | hx
    · exact hmem
    · exact hall x hx

/-- With a working random source `generateRandomSecret n` returns `n` characters
of the charset. -/
theorem generateRandomSecret_ok (n : Nat) (read : Nat → Byte) :
    ∃ s, generateRandomSecret n (some read) = .ok s ∧ s.length = n ∧ ∀ c ∈ s, c ∈ charset := by
  obtain ⟨s, hs, hlen, hall⟩ := mapCharset_ok ((List.range n).map read)
  exact ⟨s, hs, by simpa using hlen, hall⟩

/-- C7. The provisioner returns a non-empty override verbatim; otherwise, for
every outcome of the random read, the reward token is `flag{`, twelve
characters and `}`, the access token is thirty-two characters, and every
generated character belongs to the 62-character alphabet `a-z A-Z 0-9`;
`generateRandomSecret n` returns `n` characters of the charset and never
panics on an index. -/
theorem provisioner_contract :
    (∀ env rnd, env "CTF_FLAG" ≠ [] → getOrGenerateFlag env rnd = .ok (env "CTF_FLAG")) ∧
    (∀ env rnd, env "ADMIN_SECRET" ≠ [] →
      getOrGenerateSecret env rnd = .ok (env "ADMIN_SECRET")) ∧
    (∀ env read, env "CTF_FLAG" = [] → ∃ s,
      getOrGenerateFlag env (some read) = .ok (goStr "flag\x7b" ++ s ++ goStr "\x7d") ∧
      s.length = 12 ∧ ∀ c ∈ s, isAlnum c = true) ∧
    (∀ env read, env "ADMIN_SECRET" = [] → ∃ s,
      getOrGenerateSecret env (some read) = .ok s ∧ s.length = 32 ∧ ∀ c ∈ s, isAlnum c = true) ∧
    (∀ n read, ∃ s, generateRandomSecret n (some read) = .ok s ∧ s.length = n ∧
      ∀ c ∈ s, c ∈ charset) ∧
    charset.length = 62 ∧ charset.Nodup ∧ (∀ c : Byte, c ∈ charset ↔ isAlnum c = true) := by
  refine ⟨?_, ?_, ?_, ?_, generateRandomSecret_ok, charset_length, by decide, charset_alnum⟩
  · intro env rnd h
    simp [getOrGenerateFlag, h]
  · intro env rnd h
    simp [getOrGenerateSecret, h]
  · intro env read h
    obtain ⟨s, hs, hlen, hall⟩ := generateRandomSecret_ok 12 read
    refine ⟨s, ?_, hlen, fun c hc => (charset_alnum c).mp (hall c hc)⟩
    simp [getOrGenerateFlag, h, hs, Except.map]
  · intro env read h
    obtain ⟨s, hs, hlen, hall⟩ := generateRandomSecret_ok 32 read
    refine ⟨s, ?_, hlen, fun c hc => (charset_alnum c).mp (hall c hc)⟩
    simp [getOrGenerateSecret, h, hs]

/-- C7 at a pinned flag, and at an unset `ADMIN_SECRET` with the random bytes
`0, 37, 74, ...`. -/
theorem provisioner_contract_witness :
    getOrGenerateFlag (overrideEnv "flag\x7bpinned\x7d" "") none = .ok (goStr "flag\x7bpinned\x7d") ∧
    ∃ s, getOrGenerateSecret (overrideEnv "flag\x7bpinned\x7d" "") (some (fun i => byte (37 * i))) =
      .ok s ∧ s.length = 32 ∧ ∀ c ∈ s, isAlnum c = true :=
  ⟨provisioner_contract.1 _ _ (by decide), provisioner_contract.2.2.2.1 _ _ (by decide)⟩

/-- C8 (counterexample): `a` has five preimages among the 256 byte values and
`9` has four. -/
theorem preimageCount_not_uniform :
    0x61 ∈ charset ∧ 0x39 ∈ charset ∧ preimageCount 0x61 = 5 ∧ preimageCount 0x39 = 4 := by
  decide!

/-- C8. Under `b ↦ charset[b mod 62]` each of the first eight
characters `a` to `h` has five preimages among the 256 byte values and each of
the other fifty-four has four (256 = 4 · 62 + 8). -/
theorem preimageCount_charset :
    ∀ c ∈ charset, preimageCount c = if c ∈ goStr "abcdefgh" then 5 else 4 := by
  decide!

/-- C8 at the characters `h` and `i`. -/
theorem preimageCount_charset_witness :
    (0x68 : Byte) ∈ charset ∧ preimageCount 0x68 = 5 ∧
    (0x69 : Byte) ∈ charset ∧ preimageCount 0x69 = 4 :=
  ⟨by decide, (preimageCount_charset 0x68 (by decide)).trans (by decide),
   by decide, (preimageCount_charset 0x69 (by decide)).trans (by decide)⟩

/-! ## The gated page (claims C2, C3) -/

theorem contains_mem {s sub : Bytes} (h : Contains s sub) {b : Byte} (hb : b ∈ sub) : b ∈ s :=
  h.subset hb

theorem contains_append_mid (a s b : Bytes) : Contains (a ++ s ++ b) s :=
  ⟨a, b, rfl⟩

/-- The escaper leaves a string without special bytes as it is. -/
theorem htmlEscape_plain {s : Bytes} (h : ∀ b ∈ s, htmlSpecial b = false) : htmlEscape s = s := by
  induction s with
  | nil => rfl
  | cons b s ih =>
    have hb := h b (List.mem_cons_self _ _)
    simp only [htmlSpecial, Bool.or_eq_false_iff, beq_eq_false_iff_ne, ne_eq] at hb
    obtain ⟨⟨⟨⟨⟨⟨h0, h1⟩, h2⟩, h3⟩, h4⟩, h5⟩, h6⟩ := hb
    have ih' := ih (fun x hx => h x (List.mem_cons_of_mem _ hx))
    unfold htmlEscape at ih' ⊢
    rw [List.flatMap_cons, ih']
    simp [htmlEscapeByte, h0, h1, h2, h3, h4, h5, h6]

theorem alnum_not_special : ∀ c : Byte, isAlnum c = true → htmlSpecial c = false := by decide!

theorem generated_flag_shape {env : String → Bytes} {rnd : Option (Nat → Byte)} {flag : Bytes}
    (he : env "CTF_FLAG" = []) (h : getOrGenerateFlag env rnd = .ok flag) :
    ∃ s, flag = goStr "flag\x7b" ++ s ++ goStr "\x7d" ∧ s.length = 12 ∧
      ∀ c ∈ s, isAlnum c = true := by
  cases rnd with
  | none => simp [getOrGenerateFlag, he, generateRandomSecret, Except.map] at h
  | some read =>
    obtain ⟨s, hs, hlen, hall⟩ := generateRandomSecret_ok 12 read
    simp only [getOrGenerateFlag, he, ne_eq, not_true_eq_false, if_false, hs, Except.map,
      Except.ok.injEq] at h
    exact ⟨s, h.symm, hlen, fun c hc => (charset_alnum c).mp (hall c hc)⟩

theorem generated_secret_shape {env : String → Bytes} {rnd : Option (Nat → Byte)} {secret : Bytes}
    (he : env "ADMIN_SECRET" = []) (h : getOrGenerateSecret env rnd = .ok secret) :
    secret.length = 32 ∧ ∀ c ∈ secret, isAlnum c = true := by
  cases rnd with
  | none => simp [getOrGenerateSecret, he, generateRandomSecret] at h
  | some read =>
    obtain ⟨s, hs, hlen, hall⟩ := generateRandomSecret_ok 32 read
    simp only [getOrGenerateSecret, he, ne_eq, not_true_eq_false, if_false, hs,
      Except.ok.injEq] at h
    subst h
    exact ⟨hlen, fun c hc => (charset_alnum c).mp (hall c hc)⟩

/-- C2 (counterexample): with `CTF_FLAG=Forbidden` the 403 body of a request
with a wrong secret contains the reward token. -/
theorem handleAdmin_forbidden_body_has_override :
    provision (overrideEnv "Forbidden" "hunter2") none none =
      .ok ⟨goStr "Forbidden", goStr "hunter2"⟩ ∧
    (getRequest "203.0.113.7:51234" "" "guess").Query "secret" ≠ goStr "hunter2" ∧
    (handleAdmin ⟨goStr "Forbidden", goStr "hunter2"⟩ startDB
      (getRequest "203.0.113.7:51234" "" "guess")).Status = StatusForbidden ∧
    Contains (handleAdmin ⟨goStr "Forbidden", goStr "hunter2"⟩ startDB
      (getRequest "203.0.113.7:51234" "" "guess")).Body (goStr "Forbidden") := by
  refine ⟨rfl, by decide, by decide, by decide⟩

/-- C2. A request to `handleAdmin` whose `secret` parameter differs
from `ADMIN_SECRET` gets status 403 and the fixed body
`Forbidden: missing/invalid secret. Provide ?secret=...` with a line end,
whatever `FLAG` and the store are. That body does not contain `FLAG` when
`FLAG` was randomly generated, nor when `FLAG` has an opening brace in it; an
override that is a run of the fixed text is contained. -/
theorem handleAdmin_wrong_secret (cfg : Secrets) (db : DB) (r : Request)
    (h : r.Query "secret" ≠ cfg.ADMIN_SECRET) :
    (handleAdmin cfg db r).Status = StatusForbidden ∧
    (handleAdmin cfg db r).Body =
      goStr "Forbidden: missing/invalid secret. Provide ?secret=...\n" ∧
    (∀ env rnd, env "CTF_FLAG" = [] → getOrGenerateFlag env rnd = .ok cfg.FLAG →
      ¬ Contains (handleAdmin cfg db r).Body cfg.FLAG) ∧
    ((0x7B : Byte) ∈ cfg.FLAG → ¬ Contains (handleAdmin cfg db r).Body cfg.FLAG) := by
  have hbody : (handleAdmin cfg db r).Body =
      goStr "Forbidden: missing/invalid secret. Provide ?secret=...\n" := by
    simp only [handleAdmin, if_pos h, httpError]
    decide
  have hbrace : (0x7B : Byte) ∈ cfg.FLAG → ¬ Contains (handleAdmin cfg db r).Body cfg.FLAG := by
    intro hb hc
    have := contains_mem hc hb
    rw [hbody] at this
    exact absurd this (by decide)
  refine ⟨by simp only [handleAdmin, if_pos h, httpError], hbody, ?_, hbrace⟩
  intro env rnd he hg
  obtain ⟨s, hs, _, _⟩ := generated_flag_shape he hg
  apply hbrace
  rw [hs]
  have : (0x7B : Byte) ∈ goStr "flag\x7b" := by decide
  simp [this]

/-- C2 at a generated flag and the wrong secret `guess`. -/
theorem handleAdmin_wrong_secret_witness :
    (handleAdmin ⟨goStr "flag\x7bAb3dEf6hIj9L\x7d", goStr "hunter2"⟩ startDB
      (getRequest "203.0.113.7:51234" "" "guess")).Status = StatusForbidden :=
  (handleAdmin_wrong_secret ⟨goStr "flag\x7bAb3dEf6hIj9L\x7d", goStr "hunter2"⟩ startDB
    (getRequest "203.0.113.7:51234" "" "guess") (by decide)).1

theorem renderAdmin_contains (view : List AdminViewComment) (flag : Bytes) :
    Contains (renderAdmin view flag) (htmlEscape flag) := by
  exact ⟨adminHead, adminMid ++ view.flatMap renderAdminItem ++ adminTail, by
    simp [renderAdmin]⟩

/-- C3 (counterexample): with `CTF_FLAG=flag{1+1=2}` the page served for the
right secret has no `+` in it at all, so it does not contain the reward token
(the template writes the `+` as a character reference). -/
theorem handleAdmin_body_lacks_override :
    provision (overrideEnv "flag\x7b1+1=2\x7d" "hunter2") none none =
      .ok ⟨goStr "flag\x7b1+1=2\x7d", goStr "hunter2"⟩ ∧
    (getRequest "203.0.113.7:51234" "" "hunter2").Query "secret" = goStr "hunter2" ∧
    (handleAdmin ⟨goStr "flag\x7b1+1=2\x7d", goStr "hunter2"⟩ startDB
      (getRequest "203.0.113.7:51234" "" "hunter2")).Status = StatusOK ∧
    ¬ Contains (handleAdmin ⟨goStr "flag\x7b1+1=2\x7d", goStr "hunter2"⟩ startDB
      (getRequest "203.0.113.7:51234" "" "hunter2")).Body (goStr "flag\x7b1+1=2\x7d") := by
  refine ⟨rfl, by decide, by decide, ?_⟩
  intro hc
  have hplus : (0x2B : Byte) ∈ goStr "flag\x7b1+1=2\x7d" := by decide
  exact absurd (contains_mem hc hplus) (by decide!)

/-- C3. A request to `handleAdmin` whose `secret` parameter equals
`ADMIN_SECRET` gets status 200 and a body that contains the HTML-escaped
`FLAG`. The body contains the exact `FLAG` string when `FLAG` has none of the
bytes the escaper rewrites (NUL and `" & ' + < >`), in particular for every
randomly generated `FLAG`. -/
theorem handleAdmin_right_secret (cfg : Secrets) (db : DB) (r : Request)
    (h : r.Query "secret" = cfg.ADMIN_SECRET) :
    (handleAdmin cfg db r).Status = StatusOK ∧
    Contains (handleAdmin cfg db r).Body (htmlEscape cfg.FLAG) ∧
    ((∀ b ∈ cfg.FLAG, htmlSpecial b = false) → Contains (handleAdmin cfg db r).Body cfg.FLAG) ∧
    (∀ env rnd, env "CTF_FLAG" = [] → getOrGenerateFlag env rnd = .ok cfg.FLAG →
      Contains (handleAdmin cfg db r).Body cfg.FLAG) := by
  have hesc : Contains (handleAdmin cfg db r).Body (htmlEscape cfg.FLAG) := by
    simp only [handleAdmin, h, ne_eq, not_true_eq_false, if_false]
    exact renderAdmin_contains _ _
  have hplain : (∀ b ∈ cfg.FLAG, htmlSpecial b = false) →
      Contains (handleAdmin cfg db r).Body cfg.FLAG := by
    intro hp
    rw [htmlEscape_plain hp] at hesc
    exact hesc
  refine ⟨by simp only [handleAdmin, h, ne_eq, not_true_eq_false, if_false], hesc, hplain, ?_⟩
  intro env rnd he hg
  obtain ⟨s, hs, _, hall⟩ := generated_flag_shape he hg
  have h1 : ∀ b ∈ goStr "flag\x7b", htmlSpecial b = false := by decide
  have h2 : ∀ b ∈ goStr "\x7d", htmlSpecial b = false := by decide
  apply hplain
  intro b hb
  rw [hs] at hb
  rcases List.mem_append.mp hb with hb | hb
  · rcases List.mem_append.mp hb with hb | hb
    · exact h1 b hb
    · exact alnum_not_special b (hall b hb)
  · exact h2 b hb

/-- C3 at a generated flag and the right secret. -/
theorem handleAdmin_right_secret_witness :
    (handleAdmin ⟨goStr "flag\x7bAb3dEf6hIj9L\x7d", goStr "hunter2"⟩ startDB
        (getRequest "203.0.113.7:51234" "" "hunter2")).Status = StatusOK ∧
    Contains (handleAdmin ⟨goStr "flag\x7bAb3dEf6hIj9L\x7d", goStr "hunter2"⟩ startDB
        (getRequest "203.0.113.7:51234" "" "hunter2")).Body (goStr "flag\x7bAb3dEf6hIj9L\x7d") :=
  have h := handleAdmin_right_secret ⟨goStr "flag\x7bAb3dEf6hIj9L\x7d", goStr "hunter2"⟩ startDB
    (getRequest "203.0.113.7:51234" "" "hunter2") (by decide)
  ⟨h.1, h.2.2.1 (by decide)⟩

/-! ## The credential sync endpoint (claims C4, C5) -/

theorem differ_append {x y : Bytes} (h : differ x y = true) (t u : Bytes) : x ++ t ≠ y ++ u := by
  induction x generalizing y with
  | nil => simp [differ] at h
  | cons a as ih =>
    cases y with
    | nil => simp [differ] at h
    | cons b bs =>
      simp only [differ, Bool.or_eq_true, bne_iff_ne, ne_eq] at h
      intro he
      simp only [List.cons_append, List.cons.injEq] at he
      rcases h with h | h
      · exact h he.1
      · exact ih h he.2

theorem octet_differs : ∀ a : Fin 256, a.val ≠ 127 →
    differ (formatNat a.val ++ goStr ".") (goStr "127.") = true := by decide!

theorem take_eq_append {s p : Bytes} (h : s.take p.length = p) : s = p ++ s.drop p.length := by
  conv_lhs => rw [← List.take_append_drop p.length s, h]

theorem isLocalhost_ipv4 (a b c d port : Nat) (ha : a < 256) (hne : a ≠ 127) :
    isLocalhost (ipv4HostPort a b c d port) = false := by
  have hd := octet_differs ⟨a, ha⟩ hne
  simp only at hd
  have key : ∀ (p : Bytes) (t : Bytes), differ (formatNat a ++ goStr ".") p = true →
      (ipv4HostPort a b c d port).take (p ++ t).length ≠ p ++ t := by
    intro p t hp he
    have := take_eq_append he
    unfold ipv4HostPort at this
    simp only [List.append_assoc] at this
    rw [← List.append_assoc (formatNat a)] at this
    exact differ_append hp _ _ this
  have h1 : (ipv4HostPort a b c d port).take 9 ≠ goStr "127.0.0.1" :=
    key (goStr "127.") (goStr "0.0.1") hd
  have hdig : ∃ x t, formatNat a = x :: t ∧ isDigit x = true := by
    cases hf : formatNat a with
    | nil => exact absurd hf (formatNat_ne_nil a)
    | cons x t => exact ⟨x, t, rfl, formatNat_digits a x (by rw [hf]; exact List.mem_cons_self _ _)⟩
  obtain ⟨x, t, hx, hxd⟩ := hdig
  have h2 : (ipv4HostPort a b c d port).take 3 ≠ goStr "::1" := by
    apply key (goStr ":") (goStr ":1")
    have : goStr ":" = [0x3A] := by decide
    rw [hx, this]
    have hx58 : (x != 0x3A) = true := by
      rw [bne_iff_ne]; rintro rfl; exact absurd hxd (by decide)
    simp only [List.cons_append, differ, hx58, Bool.true_or]
  have h3 : ipv4HostPort a b c d port ≠ goStr "[::1]" := by
    unfold ipv4HostPort
    rw [hx]
    have : goStr "[::1]" = 0x5B :: goStr "::1]" := by decide
    rw [this]
    simp only [List.cons_append, List.append_assoc, ne_eq, List.cons.injEq, not_and]
    rintro rfl
    exact absurd hxd (by decide)
  simp [isLocalhost, h1, h2, h3]

theorem isLocalhost_ipv6 (host : Bytes) (port : Nat) :
    isLocalhost (ipv6HostPort host port) = false := by
  have e : ipv6HostPort host port = 0x5B :: (host ++ goStr "]:" ++ formatNat port) := by
    unfold ipv6HostPort
    have : goStr "[" = [0x5B] := by decide
    rw [this]; simp
  have h1 : (ipv6HostPort host port).take 9 ≠ goStr "127.0.0.1" := by
    intro he
    have := take_eq_append (p := goStr "127.0.0.1") he
    rw [e] at this
    have e2 : goStr "127.0.0.1" = 0x31 :: goStr "27.0.0.1" := by decide
    rw [e2, List.cons_append] at this
    exact absurd (List.cons.inj this).1 (by decide)
  have h2 : (ipv6HostPort host port).take 3 ≠ goStr "::1" := by
    intro he
    have := take_eq_append (p := goStr "::1") he
    rw [e] at this
    have e2 : goStr "::1" = 0x3A :: goStr ":1" := by decide
    rw [e2, List.cons_append] at this
    exact absurd (List.cons.inj this).1 (by decide)
  have h3 : ipv6HostPort host port ≠ goStr "[::1]" := by
    intro he
    have hl : (ipv6HostPort host port).getLast? = (formatNat port).getLast? := by
      unfold ipv6HostPort
      rw [List.getLast?_append_of_ne_nil _ (formatNat_ne_nil port)]
    rw [he] at hl
    have e3 : (goStr "[::1]").getLast? = some 0x5D := by decide
    rw [e3] at hl
    have := formatNat_digits port 0x5D (List.mem_of_getLast?_eq_some hl.symm)
    exact absurd this (by decide)
  simp [isLocalhost, h1, h2, h3]

/-- No non-loopback host:port address passes `isLocalhost`. -/
theorem isLocalhost_nonLoopback {addr : Bytes} (h : NonLoopbackAddr addr) :
    isLocalhost addr = false := by
  rcases h with ⟨a, b, c, d, port, ha, _, _, _, _, hne, rfl⟩ | ⟨host, port, _, _, rfl⟩
  · exact isLocalhost_ipv4 a b c d port ha hne
  · exact isLocalhost_ipv6 host port

theorem alnum_json_safe : ∀ b : Byte, isAlnum b = true → b.val < 0x80 ∧ htmlSafe b.val = true := by
  decide!

theorem chunksAux_plain : ∀ (fuel : Nat) (s : Bytes), s.length ≤ fuel →
    (∀ b ∈ s, b.val < 0x80 ∧ htmlSafe b.val = true) →
    (chunksAux fuel s).flatMap jsonEscapeChunk = s := by
  intro fuel
  induction fuel with
  | zero =>
    intro s hs _
    have : s = [] := List.length_eq_zero.mp (Nat.le_zero.mp hs)
    subst this
    simp [chunksAux]
  | succ n ih =>
    intro s hs hall
    cases s with
    | nil => simp [chunksAux]
    | cons b rest =>
      obtain ⟨hb, hsafe⟩ := hall b (List.mem_cons_self _ _)
      have hd : decodeRune (b :: rest) = (b.val, 1) := by simp [decodeRune, hb]
      simp only [chunksAux, hd, List.flatMap_cons, List.take_succ_cons, List.take_zero,
        List.drop_succ_cons, List.drop_zero]
      rw [ih rest (by simpa using hs) (fun x hx => hall x (List.mem_cons_of_mem _ hx))]
      simp [jsonEscapeChunk, hb, hsafe]

theorem jsonString_alnum {s : Bytes} (h : ∀ b ∈ s, isAlnum b = true) :
    jsonString s = goStr "\"" ++ s ++ goStr "\"" := by
  have e : goStr "\"" = [0x22] := by decide
  unfold jsonString chunks
  rw [chunksAux_plain _ s le_rfl (fun b hb => alnum_json_safe b (h b hb)), e]
  rfl

theorem botInit_message_lacks_secret {s : Bytes} (hlen : s.length = 32)
    (hall : ∀ c ∈ s, isAlnum c = true) :
    ¬ Contains (goStr "Forbidden: This endpoint is only for the admin bot\n") s := by
  rintro ⟨pre, suf, he⟩
  have hl := congrArg List.length he
  have hm : (goStr "Forbidden: This endpoint is only for the admin bot\n").length = 51 := by
    decide
  rw [hm] at hl
  simp only [List.length_append, hlen] at hl
  have h24 : (goStr "Forbidden: This endpoint is only for the admin bot\n")[24]? = some 0x20 := by
    decide
  rw [← he, List.append_assoc, List.getElem?_append_right (by omega),
    List.getElem?_append_left (by omega)] at h24
  exact absurd (hall _ (List.getElem?_mem h24)) (by decide)

/-- C4 (counterexample): with `ADMIN_SECRET=admin` the 403 body sent to a
caller without the header at a non-loopback address contains the access
token. -/
theorem handleBotInit_forbidden_body_has_override :
    provision (overrideEnv "flag\x7bx\x7d" "admin") none none =
      .ok ⟨goStr "flag\x7bx\x7d", goStr "admin"⟩ ∧
    (getRequest "203.0.113.7:51234" "" "").Header "X-Admin-Bot" ≠ goStr "1" ∧
    NonLoopbackAddr (getRequest "203.0.113.7:51234" "" "").RemoteAddr ∧
    (handleBotInit ⟨goStr "flag\x7bx\x7d", goStr "admin"⟩
      (getRequest "203.0.113.7:51234" "" "")).Status = StatusForbidden ∧
    Contains (handleBotInit ⟨goStr "flag\x7bx\x7d", goStr "admin"⟩
      (getRequest "203.0.113.7:51234" "" "")).Body (goStr "admin") := by
  refine ⟨rfl, by decide, ?_, by decide, by decide⟩
  exact Or.inl ⟨203, 0, 113, 7, 51234, by decide, by decide, by decide, by decide, by decide,
    by decide, by decide⟩

/-- C4. If the `X-Admin-Bot` header of a request to `handleBotInit` is
`1` then, whatever the remote address, the status is 200 and the body is
`{"secret":` followed by the JSON string literal of `ADMIN_SECRET`, `}` and a
line end; reading that literal back gives `ADMIN_SECRET` with invalid UTF-8
bytes replaced, hence the exact token when the token is valid UTF-8, and for a
randomly generated token the body is `{"secret":"<token>"}` with the token as
it is. If the header is not `1` and the remote address is a non-loopback
host:port address, the status is 403 and the body is the fixed text
`Forbidden: This endpoint is only for the admin bot` with a line end, which
does not contain a randomly generated token; an override that is a run of the
fixed text is contained. -/
theorem handleBotInit_policy (cfg : Secrets) (r : Request) :
    (r.Header "X-Admin-Bot" = goStr "1" →
      (handleBotInit cfg r).Status = StatusOK ∧
      (handleBotInit cfg r).Body =
        goStr "\x7b\"secret\":" ++ jsonString cfg.ADMIN_SECRET ++ goStr "\x7d\n" ∧
      ((expect (goStr "\x7b\"secret\":") (handleBotInit cfg r).Body).bind parseString =
        some (coerceUTF8 cfg.ADMIN_SECRET, goStr "\x7d\n")) ∧
      (utf8Valid cfg.ADMIN_SECRET = true → coerceUTF8 cfg.ADMIN_SECRET = cfg.ADMIN_SECRET) ∧
      (∀ env rnd, env "ADMIN_SECRET" = [] → getOrGenerateSecret env rnd = .ok cfg.ADMIN_SECRET →
        (handleBotInit cfg r).Body =
          goStr "\x7b\"secret\":\"" ++ cfg.ADMIN_SECRET ++ goStr "\"\x7d\n")) ∧
    (r.Header "X-Admin-Bot" ≠ goStr "1" → NonLoopbackAddr r.RemoteAddr →
      (handleBotInit cfg r).Status = StatusForbidden ∧
      (handleBotInit cfg r).Body =
        goStr "Forbidden: This endpoint is only for the admin bot\n" ∧
      (∀ env rnd, env "ADMIN_SECRET" = [] → getOrGenerateSecret env rnd = .ok cfg.ADMIN_SECRET →
        ¬ Contains (handleBotInit cfg r).Body cfg.ADMIN_SECRET)) := by
  constructor
  · intro hh
    have hcond : ¬ (r.Header "X-Admin-Bot" ≠ goStr "1" ∧ (!isLocalhost r.RemoteAddr) = true) :=
      fun hc => hc.1 hh
    have hbody : (handleBotInit cfg r).Body =
        goStr "\x7b\"secret\":" ++ jsonString cfg.ADMIN_SECRET ++ goStr "\x7d\n" := by
      simp only [handleBotInit, if_neg hcond, encodeSecretJSON]
    refine ⟨by simp only [handleBotInit, if_neg hcond], hbody, ?_, coerceUTF8_of_valid, ?_⟩
    · rw [hbody, List.append_assoc, expect_append, Option.some_bind, parseString_jsonString]
    · intro env rnd he hg
      obtain ⟨_, hall⟩ := generated_secret_shape he hg
      rw [hbody, jsonString_alnum hall]
      have e1 : goStr "\x7b\"secret\":\"" = goStr "\x7b\"secret\":" ++ goStr "\"" := by decide
      have e2 : goStr "\"\x7d\n" = goStr "\"" ++ goStr "\x7d\n" := by decide
      rw [e1, e2]
      simp only [List.append_assoc]
  · intro hh haddr
    have hloc := isLocalhost_nonLoopback haddr
    have hcond : r.Header "X-Admin-Bot" ≠ goStr "1" ∧ (!isLocalhost r.RemoteAddr) = true :=
      ⟨hh, by simp [hloc]⟩
    have hbody : (handleBotInit cfg r).Body =
        goStr "Forbidden: This endpoint is only for the admin bot\n" := by
      simp only [handleBotInit, if_pos hcond, httpError]
      decide
    refine ⟨by simp only [handleBotInit, if_pos hcond, httpError], hbody, ?_⟩
    intro env rnd he hg
    obtain ⟨hlen, hall⟩ := generated_secret_shape he hg
    rw [hbody]
    exact botInit_message_lacks_secret hlen hall

/-- C4 at a generated token: with the header from a public address, and without
it from the same address. -/
theorem handleBotInit_policy_witness :
    ((handleBotInit ⟨goStr "flag\x7bAb3dEf6hIj9L\x7d", goStr "Zq8mK2vX7pL4nT9wR3cY6bH1sD5fG0jA"⟩
        (getRequest "203.0.113.7:51234" "1" "")).Status = StatusOK ∧
      (handleBotInit ⟨goStr "flag\x7bAb3dEf6hIj9L\x7d", goStr "Zq8mK2vX7pL4nT9wR3cY6bH1sD5fG0jA"⟩
        (getRequest "203.0.113.7:51234" "1" "")).Body =
        goStr "\x7b\"secret\":" ++ jsonString (goStr "Zq8mK2vX7pL4nT9wR3cY6bH1sD5fG0jA") ++
          goStr "\x7d\n") ∧
    ((handleBotInit ⟨goStr "flag\x7bAb3dEf6hIj9L\x7d", goStr "Zq8mK2vX7pL4nT9wR3cY6bH1sD5fG0jA"⟩
        (getRequest "203.0.113.7:51234" "" "")).Status = StatusForbidden ∧
      (handleBotInit ⟨goStr "flag\x7bAb3dEf6hIj9L\x7d", goStr "Zq8mK2vX7pL4nT9wR3cY6bH1sD5fG0jA"⟩
        (getRequest "203.0.113.7:51234" "" "")).Body =
        goStr "Forbidden: This endpoint is only for the admin bot\n") :=
  have h1 := (handleBotInit_policy
    ⟨goStr "flag\x7bAb3dEf6hIj9L\x7d", goStr "Zq8mK2vX7pL4nT9wR3cY6bH1sD5fG0jA"⟩
    (getRequest "203.0.113.7:51234" "1" "")).1 (by decide)
  have h2 := (handleBotInit_policy
    ⟨goStr "flag\x7bAb3dEf6hIj9L\x7d", goStr "Zq8mK2vX7pL4nT9wR3cY6bH1sD5fG0jA"⟩
    (getRequest "203.0.113.7:51234" "" "")).2 (by decide)
    (Or.inl ⟨203, 0, 113, 7, 51234, by decide, by decide, by decide, by decide, by decide,
      by decide, by decide⟩)
  ⟨⟨h1.1, h1.2.1⟩, ⟨h2.1, h2.2.1⟩⟩

/-- C5, on the code: without the header, a caller at the IPv6 loopback address
as the transport reports it, `[::1]:54321`, is not recognised by `isLocalhost`
and gets 403, and so for every port; the IPv4 loopback `127.0.0.1:<port>` is
recognised and gets the token. -/
theorem isLocalhost_misses_ipv6_loopback (cfg : Secrets) :
    isLocalhost (goStr "[::1]:54321") = false ∧
    (handleBotInit cfg (getRequest "[::1]:54321" "" "")).Status = StatusForbidden ∧
    (∀ port, isLocalhost (ipv6HostPort (goStr "::1") port) = false) ∧
    (∀ port : Bytes, isLocalhost (goStr "127.0.0.1:" ++ port) = true) ∧
    (handleBotInit cfg (getRequest "127.0.0.1:54321" "" "")).Status = StatusOK := by
  have h1 : isLocalhost (goStr "[::1]:54321") = false := by decide
  have h2 : isLocalhost (goStr "127.0.0.1:54321") = true := by decide
  have h3 : (getRequest "[::1]:54321" "" "").Header "X-Admin-Bot" ≠ goStr "1" := by decide
  refine ⟨h1, ?_, fun port => isLocalhost_ipv6 _ port, ?_, ?_⟩
  · simp only [handleBotInit]
    rw [if_pos ⟨h3, by simp [getRequest, h1]⟩]
    rfl
  · intro port
    have e : goStr "127.0.0.1:" = goStr "127.0.0.1" ++ goStr ":" := by decide
    have hl : (goStr "127.0.0.1").length = 9 := by decide
    have ht : (goStr "127.0.0.1:" ++ port).take 9 = goStr "127.0.0.1" := by
      rw [e, List.append_assoc, ← hl, List.take_left]
    have hlen : (goStr "127.0.0.1:" ++ port).length ≥ 9 := by
      rw [e, List.length_append, List.length_append, hl]; omega
    unfold isLocalhost
    rw [ht, decide_eq_true hlen]
    simp
  · simp only [handleBotInit]
    rw [if_neg (by simp [getRequest, h2])]

/-! ## Posting and rendering (claims C6, C9) -/

/-- C6 (counterexample): a `POST` whose content is one space is redirected with
303, and the comment is stored: the record count and the sequence counter of
the store go from 1 (the hint) to 2. The handler compares the field with the empty
string and does not trim it. -/
theorem handlePost_stores_blank_content :
    (goStr " ").all isSpace = true ∧
    (handlePost startDB (postRequest (goStr "bob") (goStr " "))
      (goStr "2024-05-01T10:00:00Z")).1.Status = StatusSeeOther ∧
    commentCount startDB = 1 ∧ sequenceOf startDB = 1 ∧
    commentCount (handlePost startDB (postRequest (goStr "bob") (goStr " "))
      (goStr "2024-05-01T10:00:00Z")).2 = 2 ∧
    sequenceOf (handlePost startDB (postRequest (goStr "bob") (goStr " "))
      (goStr "2024-05-01T10:00:00Z")).2 = 2 := by
  decide

/-- C6. A `POST` to `handlePost` whose form parses and whose content
field is the empty string leaves the database as it was (no record, no
sequence number taken) and is answered with a 303 redirect to `/` with no
body. -/
theorem handlePost_empty_content (db : DB) (r : Request) (now : Bytes) (f : String → Bytes)
    (hm : r.Method = goStr "POST") (hf : r.Form = some f) (hc : f "content" = []) :
    handlePost db r now =
      ({ Status := StatusSeeOther, Header := [("Location", goStr "/")], Body := [] }, db) := by
  have h1 : goStr "POST" ≠ goStr "GET" := by decide
  have h2 : goStr "POST" ≠ goStr "HEAD" := by decide
  simp only [handlePost, hm, hf, hc, ne_eq, not_true_eq_false, if_false, if_true,
    httpRedirectRoot, if_neg h1, if_neg h2]

/-- C6 at an empty content posted to the start store. -/
theorem handlePost_empty_content_witness :
    handlePost startDB (postRequest (goStr "bob") []) (goStr "2024-05-01T10:00:00Z") =
      ({ Status := StatusSeeOther, Header := [("Location", goStr "/")], Body := [] }, startDB) :=
  handlePost_empty_content startDB (postRequest (goStr "bob") []) (goStr "2024-05-01T10:00:00Z")
    (fun name => if name = "username" then goStr "bob" else if name = "content" then [] else [])
    rfl rfl rfl

theorem toInt64_range (n : Nat) : -(2 ^ 63 : Int) ≤ toInt64 n ∧ toInt64 n < 2 ^ 63 := by
  unfold toInt64
  have : n % 2 ^ 64 < 2 ^ 64 := Nat.mod_lt _ (by decide)
  split_ifs with h <;> omega

theorem saveComment_record {db db1 : DB} {c c1 : Comment}
    (h : saveComment db c = .ok (db1, c1)) :
    (-(2 ^ 63 : Int) ≤ c1.ID ∧ c1.ID < 2 ^ 63) ∧ c1.Username = c.Username ∧
    c1.Content = c.Content ∧ c1.CreatedAt = c.CreatedAt ∧
    dbGet db1 (itob c1.ID) = some (jsonMarshal c1) := by
  cases db with
  | none => simp [saveComment] at h
  | some b =>
    simp only [saveComment, Bucket.NextSequence] at h
    unfold Bucket.Put at h
    split_ifs at h
    simp only [Except.ok.injEq, Prod.mk.injEq] at h
    obtain ⟨hdb, hc⟩ := h
    subst hc hdb
    refine ⟨toInt64_range _, rfl, rfl, rfl, ?_⟩
    simp only [dbGet, Option.some_bind, Bucket.Get]
    rw [find_insertEntry_self]; rfl

theorem contains_flatMap {α : Type} (f : α → Bytes) {l : List α} {x : α} (hx : x ∈ l) :
    Contains (l.flatMap f) (f x) := by
  obtain ⟨a, b, rfl⟩ := List.append_of_mem hx
  exact ⟨a.flatMap f, b.flatMap f, by simp⟩

theorem contains_trans {a b c : Bytes} (h1 : Contains a b) (h2 : Contains b c) : Contains a c :=
  List.IsInfix.trans h2 h1

theorem renderIndex_contains {comments : List Comment} {cm : Comment} (h : cm ∈ comments) :
    Contains (renderIndex (comments.map (fun c =>
      (⟨c.Username, c.Content, c.CreatedAt⟩ : IndexViewComment)))) cm.Content := by
  have hmem : (⟨cm.Username, cm.Content, cm.CreatedAt⟩ : IndexViewComment) ∈
      comments.map (fun c => (⟨c.Username, c.Content, c.CreatedAt⟩ : IndexViewComment)) :=
    List.mem_map.mpr ⟨cm, h, rfl⟩
  have h1 := contains_flatMap renderIndexItem hmem
  have h2 : Contains (renderIndexItem ⟨cm.Username, cm.Content, cm.CreatedAt⟩) cm.Content :=
    ⟨indexItemOpen ++ htmlEscape cm.Username ++ indexItemTime ++ htmlEscape cm.CreatedAt ++
      indexItemContent, indexItemClose, by simp [renderIndexItem, htmlTrusted]⟩
  have h3 : Contains (renderIndex (comments.map (fun c =>
      (⟨c.Username, c.Content, c.CreatedAt⟩ : IndexViewComment))))
      ((comments.map (fun c =>
        (⟨c.Username, c.Content, c.CreatedAt⟩ : IndexViewComment))).flatMap renderIndexItem) :=
    ⟨indexHead, indexTail, rfl⟩
  exact contains_trans h3 (contains_trans h1 h2)

/-- C9 (counterexample): the content `0xFF`, one byte that is not valid UTF-8,
is stored as U+FFFD by `json.Marshal`; the page that lists the comment (first,
before the hint) right after the post has no byte `0xFF` in it. -/
theorem handleIndex_body_lacks_invalid_content :
    ((0xFF : Byte) :: []) ≠ [] ∧
    (loadComments (handlePost startDB (postRequest (goStr "mallory") [0xFF])
      (goStr "2024-05-01T10:00:00Z")).2 50).map (fun c => c.ID) = [2, 1] ∧
    ((loadComments (handlePost startDB (postRequest (goStr "mallory") [0xFF])
      (goStr "2024-05-01T10:00:00Z")).2 50).head?).map (fun c => c.Content) =
        some [0xEF, 0xBF, 0xBD] ∧
    ¬ Contains (handleIndex (handlePost startDB (postRequest (goStr "mallory") [0xFF])
      (goStr "2024-05-01T10:00:00Z")).2).Body [0xFF] := by
  refine ⟨by decide, by decide, by decide, ?_⟩
  intro hc
  exact absurd (contains_mem hc (List.mem_singleton.mpr rfl)) (by decide!)

/-- C9. For a `POST` to `handlePost` whose content field is non-empty
and valid UTF-8 and whose `saveComment` succeeds, the comment is stored under
`itob` of its id, its record decodes to a comment with that id and exactly the
submitted content, and every later rendering by `handleIndex` in which that
comment is among the 50 listed has the content in its body byte for byte, with
no escaping. Markup such as `<script>alert(1)</script>` is such a content. -/
theorem handleIndex_renders_content_verbatim (db : DB) (r : Request) (now : Bytes)
    (f : String → Bytes) (db1 : DB) (c1 : Comment)
    (hm : r.Method = goStr "POST") (hf : r.Form = some f) (hne : f "content" ≠ [])
    (hv : utf8Valid (f "content") = true)
    (hs : saveComment db
      { ID := 0, Username := if f "username" = [] then goStr "anon" else f "username",
        Content := f "content", CreatedAt := now } = .ok (db1, c1)) :
    handlePost db r now = (httpRedirectRoot r.Method, db1) ∧
    dbGet db1 (itob c1.ID) = some (jsonMarshal c1) ∧
    ∃ cm, jsonUnmarshal (jsonMarshal c1) = some cm ∧ cm.ID = c1.ID ∧
      cm.Content = f "content" ∧
      ∀ db2, cm ∈ loadComments db2 50 → Contains (handleIndex db2).Body (f "content") := by
  obtain ⟨hrange, _, hcontent, _, hget⟩ := saveComment_record hs
  refine ⟨?_, hget, _, jsonUnmarshal_jsonMarshal c1 hrange, rfl, ?_, ?_⟩
  · simp only [handlePost, hm, hf, ne_eq, not_true_eq_false, if_false, if_neg hne, hs]
  · simp only [hcontent]
    exact coerceUTF8_of_valid hv
  · intro db2 hmem
    have := renderIndex_contains hmem
    simp only [hcontent, coerceUTF8_of_valid hv] at this
    exact this

/-- C9 at the content `<script>alert(1)</script>` posted to the start store and
rendered right after. -/
theorem handleIndex_renders_content_verbatim_witness :
    Contains (handleIndex (dbAfter startDB
      [⟨0, goStr "eve", goStr "<script>alert(1)</script>", goStr "2024-05-01T10:00:00Z"⟩])).Body
      (goStr "<script>alert(1)</script>") :=
  have h := handleIndex_renders_content_verbatim startDB
    (postRequest (goStr "eve") (goStr "<script>alert(1)</script>"))
    (goStr "2024-05-01T10:00:00Z")
    (fun name => if name = "username" then goStr "eve"
      else if name = "content" then goStr "<script>alert(1)</script>" else [])
    (dbAfter startDB
      [⟨0, goStr "eve", goStr "<script>alert(1)</script>", goStr "2024-05-01T10:00:00Z"⟩])
    ⟨2, goStr "eve", goStr "<script>alert(1)</script>", goStr "2024-05-01T10:00:00Z"⟩
    rfl rfl (by decide) (by decide) rfl
  match h.2.2 with
  | ⟨cm, hcm, _, _, hall⟩ =>
    hall _ (by
      have e : jsonUnmarshal (jsonMarshal
          ⟨2, goStr "eve", goStr "<script>alert(1)</script>", goStr "2024-05-01T10:00:00Z"⟩) =
          some ⟨2, goStr "eve", goStr "<script>alert(1)</script>",
            goStr "2024-05-01T10:00:00Z"⟩ := by decide
      rw [e] at hcm
      cases hcm
      decide)

/-! ## Recent comments (claim C1) -/

theorem insertEntry_length (k v : Bytes) (es : List (Bytes × Bytes)) (h : ∀ e ∈ es, e.1 ≠ k) :
    (insertEntry k v es).length = es.length + 1 := by
  induction es with
  | nil => rfl
  | cons e es ih =>
    obtain ⟨k1, v1⟩ := e
    have hk : k ≠ k1 := fun hk => h (k1, v1) (List.mem_cons_self _ _) hk.symm
    unfold insertEntry
    rw [if_neg hk]
    by_cases h2 : keyLt k k1 = true
    · rw [if_pos h2]; rfl
    · rw [if_neg h2, List.length_cons, ih (fun e he => h e (List.mem_cons_of_mem _ he))]
      rfl

theorem mem_insertEntry {k v : Bytes} {es : List (Bytes × Bytes)} {e : Bytes × Bytes}
    (h : e ∈ insertEntry k v es) : e = (k, v) ∨ e ∈ es := by
  induction es with
  | nil => simpa [insertEntry] using h
  | cons e1 es ih =>
    obtain ⟨k1, v1⟩ := e1
    unfold insertEntry at h
    split_ifs at h with h1 h2
    · rcases List.mem_cons.mp h with h | h
      · exact Or.inl h
      · exact Or.inr (List.mem_cons_of_mem _ h)
    · rcases List.mem_cons.mp h with h | h
      · exact Or.inl h
      · exact Or.inr h
    · rcases List.mem_cons.mp h with h | h
      · exact Or.inr (h ▸ List.mem_cons_self _ _)
      · rcases ih h with h | h
        · exact Or.inl h
        · exact Or.inr (List.mem_cons_of_mem _ h)

theorem get_none_keys {b : Bucket} {k : Bytes} (h : b.Get k = none) : ∀ e ∈ b.entries, e.1 ≠ k := by
  intro e he hk
  simp only [Bucket.Get, Option.map_eq_none', List.find?_eq_none] at h
  exact h e he (by simp [hk])

theorem saveAll_decodable : ∀ (cs : List Comment) (n : Nat) (b : Bucket) (db : DB)
    (saved : List Comment), b.Inv n → b.Decodable n → n + cs.length < 2 ^ 63 →
    saveAll (some b) cs = .ok (db, saved) →
    ∃ b1, db = some b1 ∧ b1.Decodable (n + cs.length) := by
  intro cs
  induction cs with
  | nil =>
    intro n b db saved _ hdec _ h
    simp only [saveAll, Except.ok.injEq, Prod.mk.injEq] at h
    exact ⟨b, h.1.symm, by simpa using hdec⟩
  | cons c cs ih =>
    intro n b db saved hinv hdec hn h
    simp only [List.length_cons] at hn
    obtain ⟨db1, c1, saved1, h1, h2, rfl⟩ := saveAll_cons_ok h
    obtain ⟨hc1, hfresh, b1, rfl, hinv1, _, _⟩ :=
      saveComment_step n b c c1 db1 hinv (by omega) h1
    obtain ⟨hrange, _, _, _, _⟩ := saveComment_record h1
    have hb1 : b1.entries = insertEntry (itob c1.ID) (jsonMarshal c1) b.entries := by
      simp only [saveComment, Bucket.NextSequence] at h1
      unfold Bucket.Put at h1
      split_ifs at h1
      simp only [Except.ok.injEq, Prod.mk.injEq, Option.some.injEq] at h1
      obtain ⟨hb, hc⟩ := h1
      subst hc hb
      rfl
    have hdec1 : b1.Decodable (n + 1) := by
      constructor
      · rw [hb1, insertEntry_length _ _ _ (get_none_keys (by rw [hc1]; exact hfresh)), hdec.1]
      · intro e he
        rw [hb1] at he
        rcases mem_insertEntry he with rfl | he
        · exact ⟨_, jsonUnmarshal_jsonMarshal c1 hrange⟩
        · exact hdec.2 e he
    obtain ⟨b2, hb2, hdec2⟩ := ih (n + 1) b1 db saved1 hinv1 hdec1 (by omega) h2
    exact ⟨b2, hb2, by simpa [Nat.add_assoc, Nat.add_comm 1] using hdec2⟩

theorem loadLoop_length (limit : Int) : ∀ (l : List (Bytes × Bytes)) (out : List Comment),
    (∀ e ∈ l, ∃ cm, jsonUnmarshal e.2 = some cm) →
    ((loadLoop limit l out).length : Int) =
      if (out.length : Int) < limit then min limit (out.length + l.length) else out.length := by
  intro l
  induction l with
  | nil =>
    intro out _
    simp only [loadLoop, List.length_nil, Nat.cast_zero, add_zero]
    split_ifs with h
    · omega
    · rfl
  | cons e l ih =>
    intro out h
    obtain ⟨k, v⟩ := e
    obtain ⟨cm, hcm⟩ := h (k, v) (List.mem_cons_self _ _)
    simp only at hcm
    simp only [loadLoop, hcm]
    by_cases hlt : (out.length : Int) < limit
    · rw [if_pos hlt, if_pos hlt, ih _ (fun e he => h e (List.mem_cons_of_mem _ he))]
      simp only [List.length_append, List.length_cons, List.length_nil, Nat.cast_add,
        Nat.cast_one, zero_add]
      split_ifs with h2 <;> omega
    · rw [if_neg hlt, if_neg hlt]

/-- After successful appends to a fresh store, `loadComments` returns
`min(k, N)` comments for every `k ≥ 0`. -/
theorem loadComments_length (cs : List Comment) (db : DB) (saved : List Comment) (k : Int)
    (hN : cs.length < 2 ^ 63) (h : saveAll freshDB cs = .ok (db, saved)) (hk : 0 ≤ k) :
    ((loadComments db k).length : Int) = min k cs.length := by
  obtain ⟨b1, rfl, hlen, hdec⟩ :=
    saveAll_decodable cs 0 Bucket.empty db saved Inv_empty ⟨rfl, by simp [Bucket.empty]⟩
      (by omega) h
  simp only [loadComments]
  rw [loadLoop_length k _ [] (fun e he => hdec e (List.mem_reverse.mp he))]
  simp only [List.length_nil, Nat.cast_zero, zero_add, List.length_reverse, hlen]
  split_ifs with h0 <;> omega

/-- C1, on the code: after ten successful `saveComment` calls on a fresh store
(ids 1 to 10 in call order), `loadComments(db, 10)` returns all ten comments
but in the order 9, 8, ..., 2, 10, 1: the key `10` sorts between `1` and `2`
byte-wise, so the list is not in decreasing id order and the newest comment
comes ninth. The length is as the specification has it: after any number of
successful appends to a fresh store, `loadComments(db, k)` has
`min(k, number of stored comments)` elements for every `k ≥ 0`. -/
theorem loadComments_ten_not_newest_first :
    (∀ (cs : List Comment) (db : DB) (saved : List Comment) (k : Int), cs.length < 2 ^ 63 →
      saveAll freshDB cs = .ok (db, saved) → 0 ≤ k →
      ((loadComments db k).length : Int) = min k cs.length) ∧
    (savedBy freshDB tenComments).map (fun c => c.ID) = [1, 2, 3, 4, 5, 6, 7, 8, 9, 10] ∧
    keyLt (itob 10) (itob 2) = true ∧
    (loadComments (dbAfter freshDB tenComments) 10).map (fun c => c.ID) =
      [9, 8, 7, 6, 5, 4, 3, 2, 10, 1] ∧
    ¬ ((loadComments (dbAfter freshDB tenComments) 10).map (fun c => c.ID)).Pairwise
      (fun a b => a > b) :=
  ⟨fun cs db saved k hN h hk => loadComments_length cs db saved k hN h hk, by decide!⟩

/-! ## Sequence numbers beyond the id range (claim C10) -/

theorem decimalLE_length : ∀ (fuel k n : Nat), n < 10 ^ (k + 1) →
    (decimalLE fuel n).length ≤ k + 1 := by
  intro fuel
  induction fuel with
  | zero => intro k n _; simp [decimalLE]
  | succ f ih =>
    intro k n hn
    by_cases h0 : n / 10 = 0
    · simp [decimalLE, h0]
    · simp only [decimalLE, h0, if_false, List.length_cons]
      cases k with
      | zero => simp at hn; omega
      | succ j =>
        have : n / 10 < 10 ^ (j + 1) := by
          rw [Nat.div_lt_iff_lt_mul (by decide)]
          calc n < 10 ^ (j + 1 + 1) := hn
            _ = 10 ^ (j + 1) * 10 := by rw [Nat.pow_succ]
        have := ih j (n / 10) this
        omega

theorem formatInt_length (v : Int) (hv : -(2 ^ 63 : Int) ≤ v ∧ v < 2 ^ 63) :
    1 ≤ (formatInt v).length ∧ (formatInt v).length ≤ 20 := by
  have habs : v.natAbs < 10 ^ (18 + 1) := by
    have : (10 : Nat) ^ (18 + 1) = 10000000000000000000 := by norm_num
    rw [this]; omega
  have h1 : (formatNat v.natAbs).length ≤ 19 := by
    unfold formatNat
    rw [List.length_map, List.length_reverse]
    exact decimalLE_length _ 18 _ habs
  have h2 : 1 ≤ (formatNat v.natAbs).length := List.length_pos.mpr (formatNat_ne_nil _)
  unfold formatInt
  split_ifs
  · simp only [List.length_cons]; omega
  · omega

theorem saveComment_shortComment (b : Bucket) :
    ∃ b1, saveComment (some b) shortComment =
      .ok (some b1, { shortComment with ID := toInt64 ((b.sequence + 1) % 2 ^ 64) }) ∧
      b1.sequence = (b.sequence + 1) % 2 ^ 64 := by
  obtain ⟨hl1, hl2⟩ := formatInt_length _ (toInt64_range ((b.sequence + 1) % 2 ^ 64))
  have hk0 : ¬ (itob (toInt64 ((b.sequence + 1) % 2 ^ 64))).length = 0 := by
    unfold itob; omega
  have hk1 : ¬ (itob (toInt64 ((b.sequence + 1) % 2 ^ 64))).length > MaxKeySize := by
    unfold itob MaxKeySize; omega
  have e1 : (goStr "\x7b\"id\":").length = 6 := by decide
  have e2 : (goStr ",\"username\":").length = 12 := by decide
  have e3 : (jsonString shortComment.Username).length = 6 := by decide
  have e4 : (goStr ",\"content\":").length = 11 := by decide
  have e5 : (jsonString shortComment.Content).length = 3 := by decide
  have e6 : (goStr ",\"created_at\":").length = 14 := by decide
  have e7 : (jsonString shortComment.CreatedAt).length = 22 := by decide
  have e8 : (goStr "\x7d").length = 1 := by decide
  have hm : MaxValueSize = 2147483646 := by decide
  have hv : ¬ (jsonMarshal
      { shortComment with ID := toInt64 ((b.sequence + 1) % 2 ^ 64) }).length > MaxValueSize := by
    simp only [jsonMarshal, List.length_append, e1, e2, e3, e4, e5, e6, e7, e8, hm]
    omega
  refine ⟨⟨(b.sequence + 1) % 2 ^ 64,
    insertEntry (itob (toInt64 ((b.sequence + 1) % 2 ^ 64)))
      (jsonMarshal { shortComment with ID := toInt64 ((b.sequence + 1) % 2 ^ 64) })
      b.entries⟩, ?_, rfl⟩
  simp only [saveComment, Bucket.NextSequence, Bucket.Put, if_neg hk0, if_neg hk1, if_neg hv]

theorem saveAll_shortComment : ∀ (m : Nat) (b : Bucket),
    ∃ db saved, saveAll (some b) (List.replicate m shortComment) = .ok (db, saved) := by
  intro m
  induction m with
  | zero => intro b; exact ⟨some b, [], rfl⟩
  | succ k ih =>
    intro b
    obtain ⟨b1, h1, _⟩ := saveComment_shortComment b
    obtain ⟨db, saved, h2⟩ := ih b1
    exact ⟨db, { shortComment with ID := toInt64 ((b.sequence + 1) % 2 ^ 64) } :: saved, by
      simp only [List.replicate_succ, saveAll, h1, h2]⟩

theorem toInt64_wrap : toInt64 ((2 ^ 63 - 1 + 1) % 2 ^ 64) = -(2 ^ 63 : Int) := by
  unfold toInt64
  norm_num

/-- The append number `2^63` to a fresh store, after `2^63 - 1` successful ones,
succeeds and is given the id `-2^63`. -/
theorem saveAll_wrap :
    ∃ db saved, saveAll freshDB (List.replicate (2 ^ 63 - 1) shortComment ++ [shortComment]) =
        .ok (db, saved) ∧
      (List.replicate (2 ^ 63 - 1) shortComment ++ [shortComment]).length = 2 ^ 63 ∧
      saved.getLast?.map (fun c => c.ID) = some (-(2 ^ 63 : Int)) ∧
      saved.map (fun c => c.ID) ≠
        (List.range (2 ^ 63 - 1) ++ [2 ^ 63 - 1]).map (fun (i : Nat) => (i : Int) + 1) := by
  obtain ⟨db1, saved1, h1⟩ := saveAll_shortComment (2 ^ 63 - 1) Bucket.empty
  obtain ⟨_, b1, rfl, hinv, _, _⟩ :=
    saveAll_spec _ 0 Bucket.empty db1 saved1 Inv_empty
      (by rw [List.length_replicate]; norm_num) h1
  rw [List.length_replicate, Nat.zero_add] at hinv
  obtain ⟨b2, h2, _⟩ := saveComment_shortComment b1
  rw [hinv.1, toInt64_wrap] at h2
  have hlast : ∀ (l : List Comment) (c : Comment),
      (l ++ [c]).getLast?.map (fun c => c.ID) = some c.ID := by
    intro l c; simp
  refine ⟨some b2, saved1 ++ [{ shortComment with ID := -(2 ^ 63 : Int) }], ?_, ?_, hlast _ _, ?_⟩
  · have h1' : saveAll freshDB (List.replicate (2 ^ 63 - 1) shortComment) =
        .ok (some b1, saved1) := h1
    rw [saveAll_append, h1']
    simp only [saveAll, h2]
  · rw [List.length_append, List.length_replicate]; norm_num
  · intro he
    have := congrArg List.getLast? he
    rw [List.map_append, List.map_append] at this
    simp only [List.map_cons, List.map_nil, List.getLast?_append_of_ne_nil _
      (List.cons_ne_nil _ _), List.getLast?_singleton, Option.some.injEq] at this
    norm_num at this

/-- C10 (counterexample): `2^63` successive appends of a short comment to a
fresh store all succeed, and the last of them is given the id `-2^63`: the
`uint64` sequence number `2^63` does not fit the `int64` field. The ids are
not `1, 2, ..., 2^63`. -/
theorem saveComment_id_wraps :
    ∃ db saved, saveAll freshDB (List.replicate (2 ^ 63) shortComment) = .ok (db, saved) ∧
      saved.getLast?.map (fun c => c.ID) = some (-(2 ^ 63 : Int)) ∧
      saved.map (fun c => c.ID) ≠ (List.range (2 ^ 63)).map (fun (i : Nat) => (i : Int) + 1) := by
  have e : (2 : Nat) ^ 63 = 2 ^ 63 - 1 + 1 := by norm_num
  have e1 : List.replicate (2 ^ 63) shortComment =
      List.replicate (2 ^ 63 - 1) shortComment ++ [shortComment] :=
    (congrArg (fun n => List.replicate n shortComment) e).trans (List.replicate_succ' _ _)
  have e2 : List.range (2 ^ 63) = List.range (2 ^ 63 - 1) ++ [2 ^ 63 - 1] :=
    (congrArg List.range e).trans (List.range_succ _)
  obtain ⟨db, saved, h1, _, h3, h4⟩ := saveAll_wrap
  exact ⟨db, saved, by rw [e1]; exact h1, h3, by rw [e2]; exact h4⟩

end StoredXSS
